import Mathlib

-- Batteries marks the `Rat` field operations `@[irreducible]`, which blocks
-- the elaborator's evaluation of concrete rational arithmetic inside `decide`
-- proofs; restore the default reducibility (the kernel itself computes
-- `Nat.gcd` natively, so this only re-enables what the kernel already does).
set_option allowUnsafeReducibility true
attribute [semireducible] Rat.add Rat.mul Rat.inv Rat.sub Rat.div

/-!
Verification development for the ant-algorithm-simulation repository.

The TypeScript core consists of a graph builder (`graph.model.ts`), a seeded
random provider (`random.service.ts`), a per-ant state container
(`agent.model.ts`) and the ACO engine (`ant-colony-optimization.service.ts`).
This file gives a shallow embedding of those components and proves or refutes
the frozen claims about them.

Modelling conventions:
* JavaScript numbers are modelled exactly by the type `JsNum` below: a rational
  for every finite value plus `inf` (+Infinity), `ninf` (-Infinity) and `nan`,
  with the IEEE-754 special-value propagation rules of `+`, `*`, `/`, `<`, `<=`
  written out case by case.  Finite arithmetic is treated as exact (no
  rounding), the standard caveat of this kind of embedding.
* `Math.sqrt` is not closed over the rationals, so the square root used by the
  coordinate range and by `Math.hypot` is a function parameter `sq : ℚ → ℚ`;
  `Math.hypot dx dy` is modelled as `sq (dx^2 + dy^2)`.  Concrete theorems
  instantiate `sq` with a function that agrees with the real square root on
  every input that actually occurs.
* `Math.pow(x, alpha)` appears only with the exponents from `AlgorithmParams`;
  those exponents are modelled as naturals (the repository's defaults are the
  integers 1 and 5) and the power as iterated multiplication.
* The seeded `RandomService` consumed by the graph builder and the bare
  `Math.random()` calls made by `_selectNextNode` are two separate draw
  streams, each modelled as a function `ℕ → ℚ` listing the successive values.
* Matrices (`number[][]` of size n×n) are modelled as total functions
  `ℕ → ℕ → JsNum`; operations that loop over `0 ≤ i, j < n` guard the region
  exactly as the loops do.
-/

namespace AcoSim

/-- Model of a JavaScript number: exact rationals for the finite values plus
the three IEEE special values. -/
inductive JsNum where
  | nan : JsNum
  | inf : JsNum
  | ninf : JsNum
  | fin : ℚ → JsNum
deriving DecidableEq, Repr

namespace JsNum

/-- JavaScript addition. -/
def jadd : JsNum → JsNum → JsNum
  | nan, _ => nan
  | _, nan => nan
  | inf, ninf => nan
  | inf, _ => inf
  | ninf, inf => nan
  | ninf, _ => ninf
  | fin _, inf => inf
  | fin _, ninf => ninf
  | fin a, fin b => fin (a + b)

/-- JavaScript multiplication (`Infinity * 0 = NaN`, sign rules for the
infinities). -/
def jmul : JsNum → JsNum → JsNum
  | nan, _ => nan
  | _, nan => nan
  | inf, inf => inf
  | inf, ninf => ninf
  | ninf, inf => ninf
  | ninf, ninf => inf
  | inf, fin q => if 0 < q then inf else if q < 0 then ninf else nan
  | fin q, inf => if 0 < q then inf else if q < 0 then ninf else nan
  | ninf, fin q => if 0 < q then ninf else if q < 0 then inf else nan
  | fin q, ninf => if 0 < q then ninf else if q < 0 then inf else nan
  | fin a, fin b => fin (a * b)

/-- JavaScript division (`x / 0` is a signed infinity for `x ≠ 0`, `0 / 0` and
`Infinity / Infinity` are NaN, `x / Infinity = 0`). -/
def jdiv : JsNum → JsNum → JsNum
  | nan, _ => nan
  | _, nan => nan
  | inf, inf => nan
  | inf, ninf => nan
  | ninf, inf => nan
  | ninf, ninf => nan
  | inf, fin q => if 0 ≤ q then inf else ninf
  | ninf, fin q => if 0 ≤ q then ninf else inf
  | fin _, inf => fin 0
  | fin _, ninf => fin 0
  | fin a, fin b =>
    if b = 0 then (if 0 < a then inf else if a < 0 then ninf else nan)
    else fin (a / b)

/-- JavaScript strict comparison `<`; any comparison involving NaN is false. -/
def jlt : JsNum → JsNum → Bool
  | nan, _ => false
  | _, nan => false
  | inf, _ => false
  | ninf, inf => true
  | ninf, ninf => false
  | ninf, fin _ => true
  | fin _, inf => true
  | fin _, ninf => false
  | fin a, fin b => decide (a < b)

/-- JavaScript comparison `<=`; any comparison involving NaN is false. -/
def jle : JsNum → JsNum → Bool
  | nan, _ => false
  | _, nan => false
  | inf, inf => true
  | inf, _ => false
  | ninf, _ => true
  | fin _, inf => true
  | fin _, ninf => false
  | fin a, fin b => decide (a ≤ b)

/-- `Math.pow` restricted to natural exponents (`x ^ 0 = 1` for every `x`,
including NaN, exactly as in JavaScript). -/
def jpow (x : JsNum) : ℕ → JsNum
  | 0 => fin 1
  | n + 1 => jmul x (jpow x n)

end JsNum

open JsNum

/-- A square JavaScript `number[][]` matrix, modelled as a total function;
only indices below the node count are ever accessed by the code. -/
def Mat : Type := ℕ → ℕ → JsNum

/-- A draw stream: the successive values produced by a random source
(`RandomService.next()` for the graph builder, bare `Math.random()` for the
engine's node selection). -/
def RandStream : Type := ℕ → ℚ

/-- `GraphParams` (graph-params.model.ts); the seed is abstracted into the
draw stream handed to the builder. -/
structure GraphParams where
  count : ℕ
  edgesPerNode : Option ℕ
  minDistance : Option ℚ
  maxDistance : Option ℚ
deriving DecidableEq, Repr

/-- A node's coordinates (`node.model.ts`); its id is its index. -/
structure Node where
  x : ℚ
  y : ℚ
deriving DecidableEq, Repr

namespace Graph

/-- `Graph.updatePheromone` / the two symmetric array assignments of the
weight loop: write `v` at `(i, j)` and `(j, i)`. -/
def setSym (m : Mat) (i j : ℕ) (v : JsNum) : Mat := fun a b =>
  if (a = i ∧ b = j) ∨ (a = j ∧ b = i) then v else m a b

/-- `Graph.updatePheromone`. -/
def updatePheromone (m : Mat) (i j : ℕ) (value : JsNum) : Mat :=
  setSym m i j value

/-- `Graph.evaporatePheromones`: every entry of the n×n region is multiplied
by `1 - evaporationRate`. -/
def evaporatePheromones (n : ℕ) (evaporationRate : ℚ) (m : Mat) : Mat := fun i j =>
  if i < n ∧ j < n then jmul (m i j) (fin (1 - evaporationRate)) else m i j

/-- Coordinate range `100 * Math.sqrt(count)` of `_generateNodes`. -/
def coordinateRange (sq : ℚ → ℚ) (count : ℕ) : ℚ := 100 * sq (count : ℚ)

/-- The node produced by iteration `i` of `_generateNodes`: `x` consumes draw
`2*i`, `y` consumes draw `2*i + 1`. -/
def nodeAt (sq : ℚ → ℚ) (count : ℕ) (rs : RandStream) (i : ℕ) : Node :=
  ⟨rs (2 * i) * coordinateRange sq count, rs (2 * i + 1) * coordinateRange sq count⟩

/-- `Graph._generateNodes`. -/
def generateNodes (sq : ℚ → ℚ) (params : GraphParams) (rs : RandStream) : List Node :=
  (List.range params.count).map (nodeAt sq params.count rs)

/-- `Graph._euclideanDistance` (`Math.hypot dx dy` modelled as
`sq (dx^2 + dy^2)`). -/
def euclideanDistance (sq : ℚ → ℚ) (a b : Node) : ℚ :=
  sq ((a.x - b.x) ^ 2 + (a.y - b.y) ^ 2)

/-- `Graph._buildCompleteGraph`: Euclidean distance on every off-diagonal pair
of the n×n region (the base matrix from `_createMatrix(0)` is zero-filled). -/
def buildCompleteGraph (sq : ℚ → ℚ) (params : GraphParams) (rs : RandStream) : Mat :=
  fun i j =>
    if i < params.count ∧ j < params.count then
      if i = j then fin 0
      else fin (euclideanDistance sq ((generateNodes sq params rs).getD i ⟨0, 0⟩)
        ((generateNodes sq params rs).getD j ⟨0, 0⟩))
    else fin 0

/-- State of `_generateKRegularStructure`: the edge list accumulated so far
and the degree of every node (`degree[x]`). -/
structure KState where
  edges : List (ℕ × ℕ)
  degree : ℕ → ℕ

/-- The `edges.some(([a, b]) => ...)` duplicate-edge test. -/
def edgeExistsIn (edges : List (ℕ × ℕ)) (i j : ℕ) : Bool :=
  edges.any fun e => (e.1 == i && e.2 == j) || (e.1 == j && e.2 == i)

/-- Push an edge and bump both endpoint degrees (twice the same endpoint when
`i = j`, as the two `degree[...]++` statements would). -/
def addEdge (st : KState) (i j : ℕ) : KState :=
  ⟨st.edges ++ [(i, j)],
    fun x => st.degree x + (if x = i then 1 else 0) + (if x = j then 1 else 0)⟩

/-- Step 1 of `_generateKRegularStructure`: the Hamiltonian ring
`0→1→…→(n-1)→0`. -/
def kStep1 (n : ℕ) : KState :=
  (List.range n).foldl (fun st i => addEdge st i ((i + 1) % n)) ⟨[], fun _ => 0⟩

/-- Step 2: chords at offsets `2 … ⌊k/2⌋`, added while both endpoints are
below degree `k` and the edge is new. -/
def kStep2 (n k : ℕ) (st : KState) : KState :=
  (List.range' 2 (k / 2 - 1)).foldl
    (fun st offset =>
      (List.range n).foldl
        (fun st i =>
          let j := (i + offset) % n
          if st.degree i < k ∧ st.degree j < k ∧ ¬ edgeExistsIn st.edges i j then
            addEdge st i j
          else st)
        st)
    st

/-- Step 3: for odd `k` and even `n`, diameter edges `(i, i + n/2)` for
degree-deficient `i < n/2`. -/
def kStep3 (n k : ℕ) (st : KState) : KState :=
  if k % 2 = 1 ∧ n % 2 = 0 then
    (List.range (n / 2)).foldl
      (fun st i =>
        if k ≤ st.degree i then st
        else
          let j := i + n / 2
          if st.degree j < k ∧ ¬ edgeExistsIn st.edges i j then addEdge st i j else st)
      st
  else st

/-- The inner candidate search of step 4: the not-yet-adjacent node of lowest
degree (first found wins ties), among nodes `j ≠ i` of degree `< k`. -/
def kFindCandidate (n k : ℕ) (st : KState) (i : ℕ) : Option ℕ :=
  ((List.range n).foldl
    (fun best j =>
      if i = j ∨ k ≤ st.degree j then best
      else if ¬ edgeExistsIn st.edges i j ∧ st.degree j < best.2 then (some j, st.degree j)
      else best)
    ((none : Option ℕ), k + 1)).1

/-- One pass of step 4's inner `for i` loop. -/
def kStep4Pass (n k : ℕ) (st : KState) : KState :=
  (List.range n).foldl
    (fun st i =>
      if k ≤ st.degree i then st
      else
        match kFindCandidate n k st i with
        | some j => addEdge st i j
        | none => st)
    st

/-- Step 4: the outer loop runs from the initial minimum degree (computed once,
`Math.min(...degree)`, empty minimum behaving as +Infinity) up to `k - 1`. -/
def kStep4 (n k : ℕ) (st : KState) : KState :=
  let t0 := (List.range n).foldl (fun m i => min m (st.degree i)) k
  (List.range (k - t0)).foldl (fun st _ => kStep4Pass n k st) st

/-- `Graph._generateKRegularStructure`. -/
def generateKRegularStructure (n k : ℕ) : List (ℕ × ℕ) :=
  (kStep4 n k (kStep3 n k (kStep2 n k (kStep1 n)))).edges

/-- `Graph._buildKRegularGraph`: initialize the region to `0`/`Infinity`, then
assign each structural edge a weight — random in `[minDistance ?? 10,
maxDistance ?? 100)` when either bound is given, Euclidean otherwise.  Edge
`t` consumes draw `2*count + t` (the node generator consumed the first
`2*count` draws). -/
def buildKRegularGraph (sq : ℚ → ℚ) (params : GraphParams) (rs : RandStream) : Mat :=
  let n := params.count
  let k := params.edgesPerNode.getD 2
  let nodes := generateNodes sq params rs
  let base : Mat := fun i j =>
    if i < n ∧ j < n then (if i = j then fin 0 else inf) else fin 0
  let useRandomWeights := params.minDistance.isSome || params.maxDistance.isSome
  let minDist := params.minDistance.getD 10
  let maxDist := params.maxDistance.getD 100
  (generateKRegularStructure n k).enum.foldl
    (fun m te =>
      let w : JsNum :=
        if useRandomWeights then fin (minDist + rs (2 * n + te.1) * (maxDist - minDist))
        else fin (euclideanDistance sq (nodes.getD te.2.1 ⟨0, 0⟩) (nodes.getD te.2.2 ⟨0, 0⟩))
      setSym m te.2.1 te.2.2 w)
    base

/-- `Graph._buildDistanceMatrix`: k-regular when `edgesPerNode != null &&
edgesPerNode >= 2`, complete graph otherwise. -/
def buildDistanceMatrix (sq : ℚ → ℚ) (params : GraphParams) (rs : RandStream) : Mat :=
  match params.edgesPerNode with
  | some k => if 2 ≤ k then buildKRegularGraph sq params rs else buildCompleteGraph sq params rs
  | none => buildCompleteGraph sq params rs

/-- The accumulator loop of `Graph.calculateDistance`
(`length += getDistance(tour[i], tour[i+1])` in index order). -/
def calcLoop (d : Mat) : JsNum → List ℕ → JsNum
  | acc, a :: b :: rest => calcLoop d (jadd acc (d a b)) (b :: rest)
  | acc, _ => acc

/-- `Graph.calculateDistance`. -/
def calculateDistance (d : Mat) (tour : List ℕ) : JsNum :=
  if tour.length = 0 ∨ tour.length = 1 then fin 0 else calcLoop d (fin 0) tour

/-- `Graph.getReachableNodes`: keep candidates at finite positive distance. -/
def getReachableNodes (d : Mat) (currentNode : ℕ) (candidateNodes : List ℕ) : List ℕ :=
  candidateNodes.filter fun node =>
    decide (d currentNode node ≠ JsNum.inf) && jlt (fin 0) (d currentNode node)

end Graph

/-- Per-ant state (`agent.model.ts`).  The JS `Set` tabu list is modelled as a
list queried only through membership, added to only when absent. -/
structure Agent where
  tour : List ℕ
  tabu : List ℕ
  visitedCount : ℕ
  position : ℕ
  tourLength : JsNum
deriving DecidableEq, Repr

namespace Agent

/-- `Agent.reset(startPosition)`. -/
def reset (startPosition : ℕ) : Agent :=
  ⟨[startPosition], [startPosition], 1, startPosition, JsNum.fin 0⟩

instance : Inhabited Agent := ⟨reset 0⟩

/-- `Set.add`: a no-op on an already-present member. -/
def tabuAdd (l : List ℕ) (x : ℕ) : List ℕ :=
  if x ∈ l then l else l ++ [x]

/-- `Agent.moveTo(position)`: append to the tour, mark visited, bump the
visit counter, advance the position. -/
def moveTo (a : Agent) (position : ℕ) : Agent :=
  ⟨a.tour ++ [position], tabuAdd a.tabu position, a.visitedCount + 1, position, a.tourLength⟩

/-- `Agent.closeTour()`: a no-op on an empty tour, otherwise append the
tour's first node. -/
def closeTour (a : Agent) : Agent :=
  if a.tour = [] then a else { a with tour := a.tour ++ [a.tour.headI] }

/-- `Agent.getUnvisitedNodes(totalNodes)`: the nodes `0 … totalNodes - 1` not
in the tabu list, in ascending order. -/
def getUnvisitedNodes (a : Agent) (totalNodes : ℕ) : List ℕ :=
  (List.range totalNodes).filter fun i => decide (i ∉ a.tabu)

end Agent

/-- `AlgorithmParams` (algorithm-params.model.ts).  `alpha`/`beta` are the
`Math.pow` exponents, modelled as naturals; the optional `elitistCount` is a
natural whose truthiness test is `≠ 0`. -/
structure AlgorithmParams where
  antCount : ℕ
  maxIterations : ℕ
  alpha : ℕ
  beta : ℕ
  evaporationRate : ℚ
  Q : ℚ
  elitistCount : ℕ
  improvementThreshold : ℕ
  initialPheromone : ℚ
deriving DecidableEq, Repr

/-- `AlgorithmIterationResult` (algorithm-iteration-result.model.ts). -/
structure IterationResult where
  iteration : ℕ
  bestTour : List ℕ
  bestLength : JsNum
  averageLength : JsNum
  converged : Bool
deriving DecidableEq, Repr

instance : Inhabited IterationResult := ⟨⟨0, [], JsNum.fin 0, JsNum.fin 0, false⟩⟩

namespace ACO

open JsNum Graph

/-- Mutable engine state of `AntColonyOptimization`: the agent population, the
incumbent best agent, the pheromone matrix, and the position reached in the
`Math.random()` draw stream. -/
structure EngineState where
  agents : List Agent
  bestAgent : Option Agent
  pher : Mat
  rpos : ℕ

/-- The roulette loop of `_selectNextNode`: walk the attractiveness and
candidate lists in step (the loop's index `i`), accumulate, and return the
first candidate whose cumulative sum reaches `random`; when the loop falls
through, return the last candidate (`reachableNodes[length - 1]`, passed in
as `last`). -/
def rouletteLoop (r : JsNum) (last : ℕ) : List JsNum → List ℕ → JsNum → ℕ
  | a :: arest, x :: xrest, cum =>
    let cum2 := jadd cum a
    if jle r cum2 then x else rouletteLoop r last arest xrest cum2
  | _, _, _ => last

/-- `_selectNextNode`: returns the chosen node and the new draw-stream
position (one draw is consumed in the two random branches, none otherwise). -/
def selectNextNode (n : ℕ) (d : Mat) (p : AlgorithmParams) (pher : Mat) (a : Agent)
    (s : RandStream) (k : ℕ) : ℕ × ℕ :=
  let currentNode := a.position
  let unvisitedNodes := a.getUnvisitedNodes n
  if unvisitedNodes = [] then (a.tour.headI, k)
  else
    let reachableNodes := getReachableNodes d a.position unvisitedNodes
    if reachableNodes = [] then (a.tour.headI, k)
    else if reachableNodes.length = 1 then (reachableNodes.headI, k)
    else
      let attractiveness := reachableNodes.map fun nextNode =>
        let distance := d currentNode nextNode
        let pheromone := pher currentNode nextNode
        let visibility := if distance = fin 0 then JsNum.inf else jdiv (fin 1) distance
        jmul (jpow pheromone p.alpha) (jpow visibility p.beta)
      let totalProbability := attractiveness.foldl jadd (fin 0)
      if jle totalProbability (fin 0) then
        let randomIndex := (Int.floor (s k * (reachableNodes.length : ℚ))).toNat
        (reachableNodes.getD randomIndex 0, k + 1)
      else
        let random := jmul (fin (s k)) totalProbability
        (rouletteLoop random (reachableNodes.getD (reachableNodes.length - 1) 0)
          attractiveness reachableNodes (fin 0), k + 1)

/-- `_moveAgents`: every agent that has not visited all nodes selects and
moves, in population order (which also orders the draws consumed). -/
def moveAgents (n : ℕ) (d : Mat) (p : AlgorithmParams) (pher : Mat) (s : RandStream) :
    List Agent → ℕ → List Agent × ℕ
  | [], k => ([], k)
  | a :: rest, k =>
    if a.visitedCount ≠ n then
      let sel := selectNextNode n d p pher a s k
      let next := moveAgents n d p pher s rest sel.2
      (a.moveTo sel.1 :: next.1, next.2)
    else
      let next := moveAgents n d p pher s rest k
      (a :: next.1, next.2)

/-- The construction phase of `_executeIteration`: `n - 1` rounds of
`_moveAgents`. -/
def constructionPhase (n : ℕ) (d : Mat) (p : AlgorithmParams) (pher : Mat) (s : RandStream)
    (agents : List Agent) (k : ℕ) : List Agent × ℕ :=
  (List.range (n - 1)).foldl (fun ak _ => moveAgents n d p pher s ak.1 ak.2) (agents, k)

/-- `_findBestAgent`: fold from `agents[0]`, skipping infinite tours unless
the incumbent itself is infinite.  (On an empty population the JS code would
fault on `undefined`; the model returns the default agent.) -/
def findBestAgent (agents : List Agent) : Agent :=
  agents.foldl
    (fun bestAgent agent =>
      if agent.tourLength = JsNum.inf then bestAgent
      else if bestAgent.tourLength = JsNum.inf then agent
      else if jlt agent.tourLength bestAgent.tourLength then agent
      else bestAgent)
    agents.headI

/-- The per-agent deposit loop of `_updatePheromones`: add `dep` on each
consecutive tour edge, symmetrically. -/
def depositTour (dep : JsNum) (tour : List ℕ) (m : Mat) : Mat :=
  (List.range (tour.length - 1)).foldl
    (fun mm i =>
      let src := tour.getD i 0
      let dst := tour.getD (i + 1) 0
      updatePheromone mm src dst (jadd (mm src dst) dep))
    m

/-- `_updatePheromones`: evaporate, deposit `Q / tourLength` for every agent,
then the elitist deposit `Q * elitistCount / bestAgent.tourLength` when an
incumbent exists and `elitistCount` is truthy. -/
def updatePheromones (n : ℕ) (p : AlgorithmParams) (agents : List Agent)
    (bestAgent : Option Agent) (m : Mat) : Mat :=
  let m1 := evaporatePheromones n p.evaporationRate m
  let m2 := agents.foldl (fun mm agent => depositTour (jdiv (fin p.Q) agent.tourLength) agent.tour mm) m1
  match bestAgent with
  | some b =>
    if p.elitistCount ≠ 0 then depositTour (jdiv (fin (p.Q * p.elitistCount)) b.tourLength) b.tour m2
    else m2
  | none => m2

/-- `_executeIteration`: construction, closure and re-measurement, best-agent
update, averages, pheromone update, and the emitted (pre-convergence-flag)
result. -/
def executeIteration (n : ℕ) (d : Mat) (p : AlgorithmParams) (s : RandStream)
    (iteration : ℕ) (st : EngineState) : IterationResult × EngineState :=
  let ck := constructionPhase n d p st.pher s st.agents st.rpos
  let agents2 := ck.1.map fun a =>
    let a2 := a.closeTour
    { a2 with tourLength := calculateDistance d a2.tour }
  let iterationBestAgent := findBestAgent agents2
  let bestAgent :=
    match st.bestAgent with
    | none => iterationBestAgent
    | some b => if jlt iterationBestAgent.tourLength b.tourLength then iterationBestAgent else b
  let totalLength := agents2.foldl (fun acc a => jadd acc a.tourLength) (fin 0)
  let averageLength := jdiv totalLength (fin (agents2.length : ℚ))
  let pher2 := updatePheromones n p agents2 (some bestAgent) st.pher
  (⟨iteration, bestAgent.tour, bestAgent.tourLength, averageLength, false⟩,
    ⟨agents2, some bestAgent, pher2, ck.2⟩)

/-- `_resetAgents`: agent `i` restarts at `i % n`. -/
def resetAgentsState (n : ℕ) (st : EngineState) : EngineState :=
  { st with agents := (List.range st.agents.length).map fun i => Agent.reset (i % n) }

/-- The generator loop of `_createIterationGenerator` (no external `stop()` is
modelled; the status flag therefore stays Running until the loop ends).  Note
the global best length is read *after* `_executeIteration` has already folded
the iteration's best into it. -/
def genLoop (n : ℕ) (d : Mat) (p : AlgorithmParams) (s : RandStream) :
    ℕ → ℕ → ℕ → EngineState → List IterationResult
  | 0, _, _, _ => []
  | fuel + 1, currentIteration, noImprovementCount, st =>
    if currentIteration < p.maxIterations then
      let step := executeIteration n d p s (currentIteration + 1) st
      let globalBestLength :=
        match step.2.bestAgent with
        | some b => b.tourLength
        | none => JsNum.inf
      let noImp2 :=
        if jlt step.1.bestLength globalBestLength then 0 else noImprovementCount + 1
      let converged := decide (p.improvementThreshold ≤ noImp2)
      let result := { step.1 with converged := converged }
      if converged ∨ p.maxIterations ≤ currentIteration + 1 then [result]
      else result :: genLoop n d p s fuel (currentIteration + 1) noImp2 (resetAgentsState n step.2)
    else []

/-- `_initialize`: the fresh agent population, no incumbent, the graph's
freshly initialized pheromone field, draw position zero. -/
def initState (n : ℕ) (p : AlgorithmParams) : EngineState :=
  ⟨(List.range p.antCount).map (fun i => Agent.reset (i % n)), none,
    fun _ _ => fin p.initialPheromone, 0⟩

/-- `start(graph, params)` followed by draining the generator: the full
sequence of emitted iteration results.  `n` is the node count and `d` the
graph's distance matrix; `s` lists the `Math.random()` draws. -/
def run (n : ℕ) (d : Mat) (p : AlgorithmParams) (s : RandStream) : List IterationResult :=
  genLoop n d p s p.maxIterations 0 0 (initState n p)

end ACO

/-! Specification-side definitions: independent restatements used by the claim
theorems, and predicates naming the hypotheses the claims quantify over. -/

/-- Independent recursive recomputation of a tour's length: the sum of the
distances of consecutive pairs of the given sequence, nothing else (in
particular no implicit closing edge). -/
def tourDistanceSpec (d : Mat) : List ℕ → JsNum
  | a :: b :: rest => JsNum.jadd (d a b) (tourDistanceSpec d (b :: rest))
  | _ => JsNum.fin 0

/-- Symmetry of a matrix, everywhere. -/
def Symm (m : Mat) : Prop := ∀ i j, m i j = m j i

/-- The value classes appearing in a distance matrix with no negative and no
NaN entries: a nonnegative finite value or `+Infinity`. -/
def nonnegOrInf : JsNum → Prop
  | JsNum.nan => False
  | JsNum.inf => True
  | JsNum.ninf => False
  | JsNum.fin q => 0 ≤ q

/-- A finite nonnegative value. -/
def nonnegFin : JsNum → Prop
  | JsNum.fin q => 0 ≤ q
  | _ => False

/-- A value that is neither NaN nor `-Infinity` (what tour lengths over a
distance matrix free of those values look like). -/
def finOrInf : JsNum → Prop
  | JsNum.nan => False
  | JsNum.ninf => False
  | _ => True

/-- Every pair of distinct nodes of the region is at a finite positive
distance (a fully connected graph, under which no agent can get stuck). -/
def offDiagPositive (n : ℕ) (d : Mat) : Prop :=
  ∀ i j, i < n → j < n → i ≠ j → ∃ q : ℚ, 0 < q ∧ d i j = JsNum.fin q

/-- All draws of a stream lie in `[0, 1)`, as `Math.random()` and
`RandomService.next()` guarantee. -/
def streamIn01 (s : RandStream) : Prop := ∀ k, 0 ≤ s k ∧ s k < 1

/-- One full pheromone cycle per element: the evaporate/deposit phase
`_updatePheromones` runs with that element's agent population and incumbent. -/
def applyPherCycles (n : ℕ) (p : AlgorithmParams)
    (cycles : List (List Agent × Option Agent)) (m : Mat) : Mat :=
  cycles.foldl (fun mm c => ACO.updatePheromones n p c.1 c.2 mm) m

/-- The engine-state sequence of a run: the state after `k` completed
iterations, each followed by the agent reset the generator performs before
the next iteration (the reset touches no matrix). -/
def engineStateSeq (n : ℕ) (d : Mat) (p : AlgorithmParams) (s : RandStream) :
    ℕ → ACO.EngineState
  | 0 => ACO.initState n p
  | k + 1 =>
    ACO.resetAgentsState n
      (ACO.executeIteration n d p s (k + 1) (engineStateSeq n d p s k)).2

/-- The closure step applied to each agent at the end of the construction
phase: close the tour and recompute `tourLength` with `calculateDistance`. -/
def closeAndMeasure (d : Mat) (a : Agent) : Agent :=
  let a2 := a.closeTour
  { a2 with tourLength := Graph.calculateDistance d a2.tour }

/-- The agent population produced by one `_executeIteration` call, before the
pheromone update: construction phase followed by closure/measurement. -/
def iterAgents (n : ℕ) (d : Mat) (p : AlgorithmParams) (s : RandStream)
    (st : ACO.EngineState) : List Agent :=
  (ACO.constructionPhase n d p st.pher s st.agents st.rpos).1.map (closeAndMeasure d)

/-- The incumbent after one `_executeIteration` call: the iteration's best
agent if it strictly beats the stored best (or if there is none), otherwise
the stored best. -/
def iterBestChoice (n : ℕ) (d : Mat) (p : AlgorithmParams) (s : RandStream)
    (st : ACO.EngineState) : Agent :=
  match st.bestAgent with
  | none => ACO.findBestAgent (iterAgents n d p s st)
  | some b =>
    if JsNum.jlt (ACO.findBestAgent (iterAgents n d p s st)).tourLength b.tourLength then
      ACO.findBestAgent (iterAgents n d p s st)
    else b

/-- Construction-phase bookkeeping invariant of an agent, true of every agent
the engine ever holds: the tour is nonempty and `visitedCount` counts its
entries. -/
def freshInv (a : Agent) : Prop :=
  a.tour ≠ [] ∧ a.visitedCount = a.tour.length

/-- Full construction-phase invariant of an agent on an n-node graph whose
moves never fell back to the start: the tour is a nonempty duplicate-free
sequence of nodes `< n`, the tabu set is exactly the tour's members,
`visitedCount` counts the tour, and the position is the tour's last entry. -/
def fullInv (n : ℕ) (a : Agent) : Prop :=
  a.tour ≠ [] ∧ a.tour.Nodup ∧ (∀ x ∈ a.tour, x < n) ∧
  (∀ x, x ∈ a.tabu ↔ x ∈ a.tour) ∧ a.visitedCount = a.tour.length ∧
  a.position ∈ a.tour ∧ a.tour.getLast? = some a.position

/-- Shape of every closed, measured tour: `n + 1` entries, last equal to
first, recorded length equal to the independent recomputation. -/
def closedLite (n : ℕ) (d : Mat) (a : Agent) : Prop :=
  a.tour.length = n + 1 ∧ a.tour.getLast? = some a.tour.headI ∧
  a.tourLength = Graph.calculateDistance d a.tour

/-- A closed tour whose first `n` entries visit each node exactly once. -/
def closedPerm (n : ℕ) (a : Agent) : Prop := (a.tour.take n).Perm (List.range n)

/-! Concrete fixtures for the counterexample and code-evaluation theorems.
`fxSqrt` agrees with the real square root on every input it is applied to in
those theorems (only `0`, `4` and `25` occur). -/

/-- Square-root stand-in for the concrete instances; it is queried only at
`0`, `4` and `25`, where it returns the exact square root. -/
def fxSqrt : ℚ → ℚ := fun q => if q = 25 then 5 else if q = 4 then 2 else 0

/-- The all-zero draw stream. -/
def fxZero : RandStream := fun _ => 0

/-- Triangle graph: `count = 3`, `edgesPerNode = 2`,
`minDistance = maxDistance = 1`, so the builder produces the ring
`0-1-2-0` with every edge weight exactly `1`. -/
def fxTriangleD : Mat := Graph.buildDistanceMatrix fxSqrt ⟨3, some 2, some 1, some 1⟩ fxZero

/-- One ant, exponents zero, `improvementThreshold = 1`, five allowed
iterations. -/
def fxParamsC1 : AlgorithmParams := ⟨1, 5, 0, 0, 1/2, 1, 0, 1, 1/10⟩

/-- A second `Math.random()` stream whose first roulette draw picks the other
neighbour of node 0 on the triangle. -/
def fxTwoThirds : RandStream := fun _ => 2/3

/-- Circulant graph on 8 nodes: `edgesPerNode = 4` yields the ring plus the
offset-2 chords (neighbours `i ± 1, i ± 2 mod 8`), all weights `1`. -/
def fxCirculantD : Mat := Graph.buildDistanceMatrix fxSqrt ⟨8, some 4, some 1, some 1⟩ fxZero

/-- One ant, one iteration, exponents zero, large threshold. -/
def fxParamsC3 : AlgorithmParams := ⟨1, 1, 0, 0, 1/2, 1, 0, 99, 1/10⟩

/-- Draws steering the single ant along `0→2→3→5→6→7→1`, at which point node
4 is unreachable and the stuck fallback moves the ant back to node 0. -/
def fxStuckStream : RandStream := fun t => [3/8, 1/2, 5/6, 1/2, 3/4].getD t 0

/-- Builder draws for the 4-node graph of the C9 counterexample: after the 8
coordinate draws, the six edge draws give the ring edges weight `1` and the
two diagonals weight `10`. -/
def fxK4Stream : RandStream :=
  fun t => [0, 0, 0, 0, 0, 0, 0, 0, 1/16, 1/16, 1/16, 1/16, 10/16, 10/16].getD t 0

/-- `count = 4`, `edgesPerNode = 3` (a complete K4 via ring plus diameters),
random weights in `[0, 16)`. -/
def fxK4D : Mat := Graph.buildDistanceMatrix fxSqrt ⟨4, some 3, some 0, some 16⟩ fxK4Stream

/-- One ant, two iterations, exponents zero, threshold 5. -/
def fxParamsC9 : AlgorithmParams := ⟨1, 2, 0, 0, 1/2, 100, 0, 5, 1/10⟩

/-- Engine draws for the C9 counterexample: iteration 1 builds the cheap ring
tour `0,1,2,3,0` (length 4), iteration 2 builds `0,2,1,3,0` (length 22). -/
def fxC9Stream : RandStream := fun t => [0, 0, 1/2, 0].getD t 0

/-- The single agent of a `count = 1` run: the construction phase has zero
steps, `closeTour` turns `[0]` into `[0, 0]`, and the measured length is
`d 0 0 = 0`. -/
def fxZeroAgent : Agent := ⟨[0, 0], [0], 2, 0, JsNum.fin 0⟩

/-- Full evaporation (`evaporationRate = 1`), `Q = 1`, no elitism. -/
def fxParamsC7 : AlgorithmParams := ⟨1, 2, 0, 0, 1, 1, 0, 5, 1/10⟩

/-- Distance matrix of the one-node graph: the single entry is `0`. -/
def fxOneNodeD : Mat := fun _ _ => JsNum.fin 0

/-- Complete-graph fixture for C4/C6: `count = 4`, nodes 0 and 1 at `(0,0)`
and `(3,4)` (Euclidean distance 5), nodes 2 and 3 at the origin. -/
def fxCompleteStream : RandStream := fun t => [0, 0, 3/200, 1/50].getD t 0

/-- Distance-bound parameters `[10, 20]` for the complete-graph fixture: the
pair `(0,1)` at distance 5 lies outside the closed interval. -/
def fxBoundedParams : GraphParams := ⟨4, none, some 10, some 20⟩

/-- The same fixture with `edgesPerNode = 1`, which the claim calls invalid. -/
def fxEdgeOneParams : GraphParams := ⟨4, some 1, none, none⟩

/-- All-ones distance matrix (C7 witness). -/
def fxUnitD : Mat := fun _ _ => JsNum.fin 1

/-- A closed-tour agent over `fxUnitD` whose recorded length `1` matches
`calculateDistance` of its tour (C7 witness). -/
def fxUnitAgent : Agent := ⟨[0, 1], [0, 1], 2, 1, JsNum.fin 1⟩

/-! ### Basic arithmetic lemmas about the JavaScript number model -/

namespace JsNum

theorem jadd_assoc (a b c : JsNum) : jadd (jadd a b) c = jadd a (jadd b c) := by
  rcases a with _ | _ | _ | qa <;> rcases b with _ | _ | _ | qb <;>
    rcases c with _ | _ | _ | qc <;> simp [jadd, add_assoc]

theorem jadd_zero_left (a : JsNum) : jadd (fin 0) a = a := by
  rcases a with _ | _ | _ | q <;> simp [jadd]

theorem jadd_zero_right (a : JsNum) : jadd a (fin 0) = a := by
  rcases a with _ | _ | _ | q <;> simp [jadd]

end JsNum

/-! ### Claim C10: `calculateDistance` -/

/-- Relates the index-loop accumulator of `calculateDistance` to the
independent consecutive-pair recursion. -/
theorem calcLoop_eq_spec (d : Mat) :
    ∀ (t : List ℕ) (acc : JsNum), Graph.calcLoop d acc t = JsNum.jadd acc (tourDistanceSpec d t)
  | [], acc => by simp [Graph.calcLoop, tourDistanceSpec, JsNum.jadd_zero_right]
  | [a], acc => by simp [Graph.calcLoop, tourDistanceSpec, JsNum.jadd_zero_right]
  | a :: b :: rest, acc => by
    rw [show Graph.calcLoop d acc (a :: b :: rest)
        = Graph.calcLoop d (JsNum.jadd acc (d a b)) (b :: rest) from rfl]
    rw [calcLoop_eq_spec d (b :: rest) (JsNum.jadd acc (d a b))]
    rw [JsNum.jadd_assoc]
    rfl

/-- C10: `Graph.calculateDistance` returns 0 for every tour with fewer than
two elements, and otherwise exactly the sum of `getDistance` over consecutive
pairs of the given sequence — no closing edge back to the start is added
implicitly (the right-hand side `tourDistanceSpec` sums consecutive pairs
only). -/
theorem c10_calculate_distance_spec (d : Mat) (t : List ℕ) (x : ℕ) :
    Graph.calculateDistance d t = tourDistanceSpec d t ∧
      Graph.calculateDistance d [] = JsNum.fin 0 ∧
      Graph.calculateDistance d [x] = JsNum.fin 0 := by
  refine ⟨?_, rfl, rfl⟩
  unfold Graph.calculateDistance
  rcases t with _ | ⟨a, _ | ⟨b, rest⟩⟩
  · rfl
  · rfl
  · have h : ¬((a :: b :: rest).length = 0 ∨ (a :: b :: rest).length = 1) := by
      simp
    rw [if_neg h, calcLoop_eq_spec, JsNum.jadd_zero_left]

/-! ### Claim C8: `Agent.closeTour` -/

/-- C8 counterexample: `closeTour` is not idempotent.  On the freshly reset
agent (tour `[0]`) one call yields tour `[0, 0]` but a second call yields
`[0, 0, 0]`, so calling `closeTour` twice does not equal calling it once. -/
theorem c8_counterexample_not_idempotent :
    (Agent.reset 0).closeTour.closeTour ≠ (Agent.reset 0).closeTour := by
  decide

/-- C8 (amended): `closeTour` is a no-op on an empty tour and otherwise
appends the tour's first node on every call (`tour ++ tour.take 1` covers
both cases); no other field changes.  It is not idempotent: an already-closed
tour gets its start node appended again. -/
theorem c8_amended_closetour_appends (a : Agent) :
    a.closeTour = { a with tour := a.tour ++ a.tour.take 1 } := by
  cases a with
  | mk tour tabu visitedCount position tourLength =>
    cases tour with
    | nil => rfl
    | cons x rest => rfl

/-! ### Claim C1: the convergence counter (code bug) -/

/-- C1 evaluated at the failing input: on the unit-weight triangle with
`improvementThreshold = 1` and `maxIterations = 5`, the very first iteration
strictly improves the best-ever length (`∞ → 3`), so by the claim the
no-improvement count is `0` and `converged` must be `false`; the code instead
compares the emitted best length against the *already updated* global best
(they are always equal, so the reset branch of `noImprovementCount` is dead),
increments the counter every iteration, and emits `converged = true` at
iteration 1, ending the run. -/
theorem c1_converged_despite_strict_improvement :
    ACO.run 3 fxTriangleD fxParamsC1 fxZero =
      [⟨1, [0, 1, 2, 0], JsNum.fin 3, JsNum.fin 3, true⟩] ∧
    fxParamsC1.improvementThreshold = 1 ∧ 5 ≤ fxParamsC1.maxIterations := by
  decide

/-! ### Claim C2: determinism under a fixed seed (code bug) -/

/-- C2 evaluated at the failing input: `_selectNextNode` draws its roulette
randomness from bare `Math.random()` (not from the seeded `RandomService`),
so two runs over the *same* graph with the *same* parameters differ as soon
as their `Math.random()` draws differ: with first draw `0` the triangle tour
is `[0, 1, 2, 0]`, with first draw `2/3` it is `[0, 2, 1, 0]`, and the
emitted `IterationResult` sequences are unequal. -/
theorem c2_runs_differ_for_distinct_unseeded_draws :
    ACO.run 3 fxTriangleD fxParamsC1 fxZero ≠
      ACO.run 3 fxTriangleD fxParamsC1 fxTwoThirds := by
  decide

/-! ### Claim C3, counterexample: a stuck agent wins the iteration -/

/-- C3 counterexample: on the 8-node circulant graph (neighbours `i ± 1,
i ± 2`), the draws of `fxStuckStream` steer the single ant along
`0→2→3→5→6→7→1`; at node 1 the only unvisited node 4 is unreachable, the
stuck fallback moves the ant back to node 0, and `closeTour` appends 0 once
more.  The emitted `bestTour` has finite recorded length 7 but visits node 4
zero times (and node 0 three times), refuting "visits each of the `count`
nodes exactly once before the closing return". -/
theorem c3_counterexample_stuck_agent :
    (ACO.run 8 fxCirculantD fxParamsC3 fxStuckStream).length = 1 ∧
    (ACO.run 8 fxCirculantD fxParamsC3 fxStuckStream).headI.bestTour =
      [0, 2, 3, 5, 6, 7, 1, 0, 0] ∧
    ((ACO.run 8 fxCirculantD fxParamsC3 fxStuckStream).headI.bestTour).count 4 = 0 ∧
    (ACO.run 8 fxCirculantD fxParamsC3 fxStuckStream).headI.bestLength = JsNum.fin 7 := by
  decide

/-! ### Claim C9, counterexample: `averageLength` vs `bestLength` -/

/-- C9 counterexample: a single-ant run on the weighted K4 (ring edges 1,
diagonals 10).  Iteration 1 builds the ring tour of length 4; iteration 2
builds the tour `0,2,1,3,0` of length 22.  The second emitted result carries
`averageLength = 22` (the current tour) but `bestLength = 4` (the best-ever
length), refuting `averageLength == bestLength` for `antCount = 1`. -/
theorem c9_counterexample_average_differs :
    fxParamsC9.antCount = 1 ∧
    (ACO.run 4 fxK4D fxParamsC9 fxC9Stream).length = 2 ∧
    ((ACO.run 4 fxK4D fxParamsC9 fxC9Stream).getD 1 default).averageLength = JsNum.fin 22 ∧
    ((ACO.run 4 fxK4D fxParamsC9 fxC9Stream).getD 1 default).bestLength = JsNum.fin 4 ∧
    ((ACO.run 4 fxK4D fxParamsC9 fxC9Stream).getD 1 default).averageLength ≠
      ((ACO.run 4 fxK4D fxParamsC9 fxC9Stream).getD 1 default).bestLength := by
  decide

/-! ### Claim C7, counterexample: a zero-length tour poisons the field -/

/-- C7 counterexample: on the one-node graph (`count = 1`, distance entry 0)
the construction phase has zero steps and the closed tour is `[0, 0]` of
length 0, exactly the agent produced by every iteration of such a run.  With
`evaporationRate = 1 ∈ [0,1]`, `Q = 1 > 0` and the uniformly positive initial
field `0.1`, the first `_updatePheromones` cycle deposits `Q / 0 = +∞` on the
entry and the second cycle's evaporation computes `∞ * 0 = NaN`, for which
`0 ≤ NaN` is false — the field does not remain `≥ 0`. -/
theorem c7_counterexample_nan_pheromone :
    JsNum.jle (JsNum.fin 0)
        (applyPherCycles 1 fxParamsC7
          [([fxZeroAgent], some fxZeroAgent), ([fxZeroAgent], some fxZeroAgent)]
          (fun _ _ => JsNum.fin (1/10)) 0 0) = false ∧
    fxZeroAgent.tourLength = Graph.calculateDistance fxOneNodeD fxZeroAgent.tour ∧
    fxOneNodeD 0 0 = JsNum.fin 0 ∧
    (0 ≤ fxParamsC7.evaporationRate ∧ fxParamsC7.evaporationRate ≤ 1) ∧
    0 < fxParamsC7.Q ∧ 0 < (1/10 : ℚ) := by
  decide

/-! ### Claim C6: complete-graph mode ignores the distance bounds -/

/-- C6 counterexample: in complete-graph mode (`edgesPerNode` absent) with
`minDistance = 10`, `maxDistance = 20`, nodes 0 and 1 sit at `(0,0)` and
`(3,4)`, Euclidean distance `5`, outside the closed interval `[10, 20]`; the
claim says the edge is removed (`+Infinity`), but the built matrix keeps the
Euclidean distance `5`. -/
theorem c6_counterexample_no_pruning :
    Graph.buildDistanceMatrix fxSqrt fxBoundedParams fxCompleteStream 0 1 = JsNum.fin 5 ∧
    fxBoundedParams.edgesPerNode = none ∧
    fxBoundedParams.minDistance = some 10 ∧ fxBoundedParams.maxDistance = some 20 ∧
    (5 : ℚ) < 10 ∧ JsNum.fin 5 ≠ JsNum.inf := by
  decide

/-- C6 (amended): in complete-graph mode `minDistance`/`maxDistance` are
ignored entirely — the built distance matrix is identical to the one built
with no bounds at all; every off-diagonal pair keeps its Euclidean distance
and no edge is removed. -/
theorem c6_amended_bounds_ignored (sq : ℚ → ℚ) (count : ℕ) (mn mx : Option ℚ)
    (rs : RandStream) :
    Graph.buildDistanceMatrix sq ⟨count, none, mn, mx⟩ rs =
      Graph.buildDistanceMatrix sq ⟨count, none, none, none⟩ rs := rfl

/-! ### Claim C4: no configuration validation exists -/

/-- C4 counterexample: configurations the claim says are rejected before any
work is done are instead processed normally: with `edgesPerNode = 1` the
builder silently produces the complete Euclidean matrix (the `(0,1)` entry is
the computed distance 5, not an error), and with `count = 0` node generation
returns the empty list without failing. -/
theorem c4_counterexample_invalid_config_accepted :
    Graph.buildDistanceMatrix fxSqrt fxEdgeOneParams fxCompleteStream 0 1 = JsNum.fin 5 ∧
    fxEdgeOneParams.edgesPerNode = some 1 ∧
    Graph.generateNodes fxSqrt ⟨0, none, none, none⟩ fxZero = [] := by
  decide

/-- C4 (amended): nothing is validated.  `edgesPerNode` present but `< 2` is
treated exactly like an absent `edgesPerNode` (complete-graph mode);
`count = 0` yields an empty node list rather than an error; and
`ACOEngine.start` performs no parameter checks — on any graph with at least
one node and a colony with at least one ant, every `AlgorithmParams` with
`maxIterations ≥ 1` (including zero/negative `Q` or an `evaporationRate`
outside `[0,1]`) makes the generator emit at least one iteration result.
(The two degenerate shapes are outside this statement because they fail
incidentally in the program, through paths a total embedding does not carry:
with zero nodes and at least one ant the agent is seeded at `0 % 0 = NaN`
and the first `next()` throws a TypeError on `distances[NaN][NaN]` before
anything is yielded; with zero ants the first iteration completes — the
`undefined` best agent falls back to a default-constructed agent — and
emits a result, a TypeError being possible only from the second
iteration on.) -/
theorem c4_amended_no_validation :
    (∀ (sq : ℚ → ℚ) (p : GraphParams) (rs : RandStream) (k : ℕ),
      p.edgesPerNode = some k → k < 2 →
        Graph.buildDistanceMatrix sq p rs = Graph.buildCompleteGraph sq p rs) ∧
    (∀ (sq : ℚ → ℚ) (p : GraphParams) (rs : RandStream),
      p.count = 0 → Graph.generateNodes sq p rs = []) ∧
    (∀ (n : ℕ) (d : Mat) (p : AlgorithmParams) (s : RandStream),
      1 ≤ n → 1 ≤ p.antCount → 1 ≤ p.maxIterations →
        1 ≤ (ACO.run n d p s).length) := by
  refine ⟨?_, ?_, ?_⟩
  · intro sq p rs k hk hlt
    unfold Graph.buildDistanceMatrix
    rw [hk]
    simp only [if_neg (by omega : ¬ 2 ≤ k)]
  · intro sq p rs hc
    unfold Graph.generateNodes
    rw [hc]
    rfl
  · intro n d p s _hn _ha hmax
    unfold ACO.run
    obtain ⟨m, hm⟩ : ∃ m, p.maxIterations = m + 1 := ⟨p.maxIterations - 1, by omega⟩
    rw [hm]
    unfold ACO.genLoop
    rw [if_pos (by omega : 0 < p.maxIterations)]
    dsimp only
    split <;> (split <;> simp)

/-- Witness for C4 (amended): the `edgesPerNode = 1` fixture really falls
back to the complete graph, and a concrete run with `maxIterations = 5`
emits at least one result. -/
theorem c4_amended_no_validation_witness :
    Graph.buildDistanceMatrix fxSqrt fxEdgeOneParams fxCompleteStream =
      Graph.buildCompleteGraph fxSqrt fxEdgeOneParams fxCompleteStream ∧
    1 ≤ (ACO.run 3 fxTriangleD fxParamsC1 fxZero).length :=
  ⟨c4_amended_no_validation.1 fxSqrt fxEdgeOneParams fxCompleteStream 1 rfl (by decide),
    c4_amended_no_validation.2.2 3 fxTriangleD fxParamsC1 fxZero
      (by decide) (by decide) (by decide)⟩

/-! ### Claim C5: symmetry of the distance and pheromone matrices -/

/-- Generic preservation of a predicate along `List.foldl`. -/
theorem foldl_preserves {α β : Type} (P : β → Prop) (f : β → α → β)
    (h : ∀ b a, P b → P (f b a)) : ∀ (l : List α) (b : β), P b → P (l.foldl f b)
  | [], _, hb => hb
  | a :: l, b, hb => foldl_preserves P f h l (f b a) (h b a hb)

theorem setSym_symm (m : Mat) (i j : ℕ) (v : JsNum) (hm : Symm m) :
    Symm (Graph.setSym m i j v) := by
  intro a b
  unfold Graph.setSym
  by_cases h : (a = i ∧ b = j) ∨ (a = j ∧ b = i)
  · rw [if_pos h, if_pos (by tauto)]
  · rw [if_neg h, if_neg (by tauto), hm]

theorem updatePheromone_symm (m : Mat) (i j : ℕ) (v : JsNum) (hm : Symm m) :
    Symm (Graph.updatePheromone m i j v) :=
  setSym_symm m i j v hm

theorem evaporatePheromones_symm (n : ℕ) (rate : ℚ) (m : Mat) (hm : Symm m) :
    Symm (Graph.evaporatePheromones n rate m) := by
  intro i j
  unfold Graph.evaporatePheromones
  by_cases h : i < n ∧ j < n
  · rw [if_pos h, if_pos ⟨h.2, h.1⟩, hm]
  · rw [if_neg h, if_neg (by tauto), hm]

theorem depositTour_symm (dep : JsNum) (tour : List ℕ) (m : Mat) (hm : Symm m) :
    Symm (ACO.depositTour dep tour m) :=
  foldl_preserves Symm _
    (fun mm _ hmm => updatePheromone_symm mm _ _ _ hmm) _ m hm

theorem updatePheromones_symm (n : ℕ) (p : AlgorithmParams) (agents : List Agent)
    (best : Option Agent) (m : Mat) (hm : Symm m) :
    Symm (ACO.updatePheromones n p agents best m) := by
  unfold ACO.updatePheromones
  have h2 : Symm (agents.foldl
      (fun mm agent => ACO.depositTour (JsNum.jdiv (JsNum.fin p.Q) agent.tourLength) agent.tour mm)
      (Graph.evaporatePheromones n p.evaporationRate m)) :=
    foldl_preserves Symm _ (fun mm a hmm => depositTour_symm _ _ mm hmm) _ _
      (evaporatePheromones_symm n p.evaporationRate m hm)
  split
  · split
    · exact depositTour_symm _ _ _ h2
    · exact h2
  · exact h2

theorem executeIteration_pher_symm (n : ℕ) (d : Mat) (p : AlgorithmParams) (s : RandStream)
    (it : ℕ) (st : ACO.EngineState) (hm : Symm st.pher) :
    Symm ((ACO.executeIteration n d p s it st).2.pher) := by
  exact updatePheromones_symm n p ((ACO.executeIteration n d p s it st).2.agents)
    ((ACO.executeIteration n d p s it st).2.bestAgent) st.pher hm

theorem euclideanDistance_symm (sq : ℚ → ℚ) (a b : Node) :
    Graph.euclideanDistance sq a b = Graph.euclideanDistance sq b a := by
  unfold Graph.euclideanDistance
  congr 1
  ring

theorem buildCompleteGraph_symm (sq : ℚ → ℚ) (p : GraphParams) (rs : RandStream) :
    Symm (Graph.buildCompleteGraph sq p rs) := by
  intro i j
  unfold Graph.buildCompleteGraph
  split_ifs <;> first | rfl | omega | rw [euclideanDistance_symm]

theorem buildKRegularGraph_symm (sq : ℚ → ℚ) (p : GraphParams) (rs : RandStream) :
    Symm (Graph.buildKRegularGraph sq p rs) := by
  unfold Graph.buildKRegularGraph
  apply foldl_preserves Symm _ (fun m te hm => setSym_symm m _ _ _ hm)
  intro i j
  dsimp only
  split_ifs <;> first | rfl | omega

theorem buildDistanceMatrix_symm (sq : ℚ → ℚ) (p : GraphParams) (rs : RandStream) :
    Symm (Graph.buildDistanceMatrix sq p rs) := by
  rcases hp : p.edgesPerNode with _ | k
  · simp only [Graph.buildDistanceMatrix, hp]
    exact buildCompleteGraph_symm sq p rs
  · simp only [Graph.buildDistanceMatrix, hp]
    by_cases hk : 2 ≤ k
    · rw [if_pos hk]
      exact buildKRegularGraph_symm sq p rs
    · rw [if_neg hk]
      exact buildCompleteGraph_symm sq p rs

/-- C5: the built distance matrix is symmetric in every mode; symmetry of the
pheromone field is preserved by evaporation, by the full evaporate/deposit
phase, and by every engine iteration; and along a run (whose distance matrix
the engine never writes) the pheromone field is symmetric after construction
and after each iteration's update phase. -/
theorem c5_symmetry_invariant :
    (∀ (sq : ℚ → ℚ) (p : GraphParams) (rs : RandStream),
      Symm (Graph.buildDistanceMatrix sq p rs)) ∧
    (∀ (n : ℕ) (rate : ℚ) (m : Mat), Symm m → Symm (Graph.evaporatePheromones n rate m)) ∧
    (∀ (n : ℕ) (p : AlgorithmParams) (agents : List Agent) (best : Option Agent) (m : Mat),
      Symm m → Symm (ACO.updatePheromones n p agents best m)) ∧
    (∀ (n : ℕ) (d : Mat) (p : AlgorithmParams) (s : RandStream) (it : ℕ)
      (st : ACO.EngineState), Symm st.pher → Symm ((ACO.executeIteration n d p s it st).2.pher)) ∧
    (∀ (n : ℕ) (d : Mat) (p : AlgorithmParams) (s : RandStream) (k : ℕ),
      Symm ((engineStateSeq n d p s k).pher)) := by
  refine ⟨buildDistanceMatrix_symm, evaporatePheromones_symm, updatePheromones_symm,
    executeIteration_pher_symm, ?_⟩
  intro n d p s k
  induction k with
  | zero => exact fun i j => rfl
  | succ k ih =>
    exact executeIteration_pher_symm n d p s (k + 1) (engineStateSeq n d p s k) ih

/-- Witness for C5: the concrete triangle run's pheromone field is symmetric
after the first iteration, and the bounded complete-graph fixture's distance
matrix is symmetric. -/
theorem c5_symmetry_invariant_witness :
    Symm ((ACO.executeIteration 3 fxTriangleD fxParamsC1 fxZero 1
      (ACO.initState 3 fxParamsC1)).2.pher) ∧
    Symm (Graph.buildDistanceMatrix fxSqrt fxBoundedParams fxCompleteStream) := by
  constructor
  · exact c5_symmetry_invariant.2.2.2.1 3 fxTriangleD fxParamsC1 fxZero 1
      (ACO.initState 3 fxParamsC1) (fun _ _ => rfl)
  · exact c5_symmetry_invariant.1 fxSqrt fxBoundedParams fxCompleteStream

/-! ### Claim C7 (amended): nonnegativity of the pheromone field -/

/-- Preservation of a predicate along `List.foldl`, with membership
information available to the step hypothesis. -/
theorem foldl_preserves_mem {α β : Type} (P : β → Prop) (f : β → α → β) :
    ∀ (l : List α), (∀ b a, a ∈ l → P b → P (f b a)) → ∀ b, P b → P (l.foldl f b)
  | [], _, _, hb => hb
  | a :: l, h, b, hb =>
    foldl_preserves_mem P f l (fun b' a' ha' => h b' a' (List.mem_cons_of_mem a ha')) (f b a)
      (h b a (List.mem_cons_self a l) hb)

theorem jadd_nonnegOrInf {a b : JsNum} (ha : nonnegOrInf a) (hb : nonnegOrInf b) :
    nonnegOrInf (JsNum.jadd a b) := by
  rcases a with _ | _ | _ | qa <;> rcases b with _ | _ | _ | qb <;>
    simp_all [nonnegOrInf, JsNum.jadd]
  positivity

theorem jadd_nonnegFin {a b : JsNum} (ha : nonnegFin a) (hb : nonnegFin b) :
    nonnegFin (JsNum.jadd a b) := by
  rcases a with _ | _ | _ | qa <;> rcases b with _ | _ | _ | qb <;>
    simp_all [nonnegFin, JsNum.jadd]
  positivity

theorem calcLoop_nonnegOrInf {d : Mat} (hd : ∀ i j, nonnegOrInf (d i j)) :
    ∀ (t : List ℕ) (acc : JsNum), nonnegOrInf acc → nonnegOrInf (Graph.calcLoop d acc t)
  | [], _, hacc => hacc
  | [_], _, hacc => hacc
  | a :: b :: rest, _, hacc =>
    calcLoop_nonnegOrInf hd (b :: rest) _ (jadd_nonnegOrInf hacc (hd a b))

theorem calculateDistance_nonnegOrInf {d : Mat} (hd : ∀ i j, nonnegOrInf (d i j))
    (t : List ℕ) : nonnegOrInf (Graph.calculateDistance d t) := by
  unfold Graph.calculateDistance
  split
  · exact le_refl 0
  · exact calcLoop_nonnegOrInf hd t _ (le_refl 0)

/-- The per-agent deposit `c / tourLength` is finite and nonnegative whenever
`c > 0` and the tour length is nonnegative-or-infinite but not exactly 0. -/
theorem jdiv_deposit_nonnegFin {c : ℚ} {len : JsNum} (hc : 0 < c)
    (hlen : nonnegOrInf len) (hne : len ≠ JsNum.fin 0) :
    nonnegFin (JsNum.jdiv (JsNum.fin c) len) := by
  rcases len with _ | _ | _ | q
  · exact absurd hlen not_false
  · exact le_refl 0
  · exact absurd hlen not_false
  · have hq : ¬ q = 0 := fun h => hne (by rw [h])
    show nonnegFin (if q = 0 then _ else JsNum.fin (c / q))
    rw [if_neg hq]
    exact div_nonneg hc.le hlen

theorem setSym_nonnegFin {m : Mat} {i j : ℕ} {v : JsNum} (hv : nonnegFin v)
    (hm : ∀ a b, nonnegFin (m a b)) : ∀ a b, nonnegFin (Graph.setSym m i j v a b) := by
  intro a b
  unfold Graph.setSym
  split
  · exact hv
  · exact hm a b

theorem depositTour_nonnegFin {dep : JsNum} (hdep : nonnegFin dep) (tour : List ℕ)
    {m : Mat} (hm : ∀ a b, nonnegFin (m a b)) :
    ∀ a b, nonnegFin (ACO.depositTour dep tour m a b) := by
  unfold ACO.depositTour
  refine foldl_preserves (fun mm => ∀ a b, nonnegFin (mm a b)) _ ?_ _ m hm
  intro mm t hmm
  exact setSym_nonnegFin (jadd_nonnegFin (hmm _ _) hdep) hmm

theorem evaporatePheromones_nonnegFin {rate : ℚ} (h1 : rate ≤ 1)
    (n : ℕ) {m : Mat} (hm : ∀ a b, nonnegFin (m a b)) :
    ∀ a b, nonnegFin (Graph.evaporatePheromones n rate m a b) := by
  intro a b
  unfold Graph.evaporatePheromones
  split
  · have := hm a b
    rcases hq : m a b with _ | _ | _ | q <;> rw [hq] at this <;>
      first
      | exact absurd this not_false
      | exact mul_nonneg this (by linarith)
  · exact hm a b

/-- One `_updatePheromones` cycle keeps every entry finite and nonnegative,
provided every deposited tour length is nonnegative-or-infinite and nonzero. -/
theorem updatePheromones_nonnegFin (n : ℕ) (p : AlgorithmParams) (agents : List Agent)
    (best : Option Agent) {m : Mat}
    (h1 : p.evaporationRate ≤ 1) (hQ : 0 < p.Q)
    (hag : ∀ a ∈ agents, nonnegOrInf a.tourLength ∧ a.tourLength ≠ JsNum.fin 0)
    (hb : ∀ b, best = some b → nonnegOrInf b.tourLength ∧ b.tourLength ≠ JsNum.fin 0)
    (hm : ∀ a b, nonnegFin (m a b)) :
    ∀ a b, nonnegFin (ACO.updatePheromones n p agents best m a b) := by
  unfold ACO.updatePheromones
  have h2 : ∀ a b, nonnegFin ((agents.foldl
      (fun mm agent => ACO.depositTour (JsNum.jdiv (JsNum.fin p.Q) agent.tourLength) agent.tour mm)
      (Graph.evaporatePheromones n p.evaporationRate m)) a b) := by
    refine foldl_preserves_mem (fun mm : Mat => ∀ a b, nonnegFin (mm a b)) _ agents ?_ _
      (evaporatePheromones_nonnegFin h1 n hm)
    intro mm ag hmem hmm
    exact depositTour_nonnegFin
      (jdiv_deposit_nonnegFin hQ (hag ag hmem).1 (hag ag hmem).2) ag.tour hmm
  rcases best with _ | b
  · exact h2
  · by_cases hne : p.elitistCount ≠ 0
    · have hbb := hb b rfl
      have hQe : (0 : ℚ) < p.Q * p.elitistCount := by
        have h1e : (1 : ℚ) ≤ (p.elitistCount : ℚ) :=
          mod_cast Nat.one_le_iff_ne_zero.mpr hne
        nlinarith
      intro a c
      show nonnegFin ((if p.elitistCount ≠ 0 then
        ACO.depositTour (JsNum.jdiv (JsNum.fin (p.Q * p.elitistCount)) b.tourLength) b.tour _
        else _) a c)
      rw [if_pos hne]
      exact depositTour_nonnegFin (jdiv_deposit_nonnegFin hQe hbb.1 hbb.2) b.tour h2 a c
    · intro a c
      show nonnegFin ((if p.elitistCount ≠ 0 then
        ACO.depositTour (JsNum.jdiv (JsNum.fin (p.Q * p.elitistCount)) b.tourLength) b.tour _
        else _) a c)
      rw [if_neg hne]
      exact h2 a c

theorem nonnegFin_jle (x : JsNum) (hx : nonnegFin x) :
    JsNum.jle (JsNum.fin 0) x = true := by
  rcases x with _ | _ | _ | q
  · exact absurd hx not_false
  · exact absurd hx not_false
  · exact absurd hx not_false
  · simpa [JsNum.jle] using hx

/-- C7 (amended): starting from a uniformly positive field, any number of
evaporate/deposit cycles with `evaporationRate ∈ [0,1]` and `Q > 0` keeps
every pheromone entry `≥ 0` (indeed finite and nonnegative), provided every
tour deposited in a cycle — agent tours and the elitist incumbent's tour,
measured by `calculateDistance` over a distance matrix with
nonnegative-or-infinite entries — has nonzero length.  (The unamended claim
fails exactly when a zero-length tour occurs: `Q/0 = +∞`, and a later
evaporation at rate 1 produces `∞ * 0 = NaN`.) -/
theorem c7_amended_nonneg_pheromones (n : ℕ) (d : Mat) (p : AlgorithmParams) (c : ℚ)
    (cycles : List (List Agent × Option Agent))
    (hd : ∀ i j, nonnegOrInf (d i j))
    (_h0 : 0 ≤ p.evaporationRate) (h1 : p.evaporationRate ≤ 1)
    (hQ : 0 < p.Q) (hc : 0 < c)
    (hcy : ∀ pr ∈ cycles,
      (∀ a ∈ pr.1, a.tourLength = Graph.calculateDistance d a.tour ∧
        Graph.calculateDistance d a.tour ≠ JsNum.fin 0) ∧
      (∀ b, pr.2 = some b → b.tourLength = Graph.calculateDistance d b.tour ∧
        Graph.calculateDistance d b.tour ≠ JsNum.fin 0)) :
    ∀ i j, JsNum.jle (JsNum.fin 0)
      (applyPherCycles n p cycles (fun _ _ => JsNum.fin c) i j) = true := by
  have key : ∀ a b, nonnegFin (applyPherCycles n p cycles (fun _ _ => JsNum.fin c) a b) := by
    unfold applyPherCycles
    refine foldl_preserves_mem (fun mm : Mat => ∀ a b, nonnegFin (mm a b)) _ cycles ?_ _
      (fun _ _ => hc.le)
    intro mm cyc hmem hmm
    refine updatePheromones_nonnegFin n p cyc.1 cyc.2 h1 hQ ?_ ?_ hmm
    · intro a ha
      have h := (hcy cyc hmem).1 a ha
      rw [h.1]
      exact ⟨calculateDistance_nonnegOrInf hd a.tour, h.2⟩
    · intro b hbeq
      have h := (hcy cyc hmem).2 b hbeq
      rw [h.1]
      exact ⟨calculateDistance_nonnegOrInf hd b.tour, h.2⟩
  intro i j
  exact nonnegFin_jle _ (key i j)

/-- Witness for C7 (amended): two cycles over the all-ones matrix with a
closed tour of length 1 keep the `(0,0)` entry nonnegative. -/
theorem c7_amended_nonneg_pheromones_witness :
    JsNum.jle (JsNum.fin 0)
      (applyPherCycles 2 fxParamsC9
        [([fxUnitAgent], none), ([fxUnitAgent], some fxUnitAgent)]
        (fun _ _ => JsNum.fin 1) 0 0) = true := by
  have hone : fxUnitAgent.tourLength = Graph.calculateDistance fxUnitD fxUnitAgent.tour ∧
      Graph.calculateDistance fxUnitD fxUnitAgent.tour ≠ JsNum.fin 0 := ⟨by decide, by decide⟩
  refine c7_amended_nonneg_pheromones 2 fxUnitD fxParamsC9 1
    [([fxUnitAgent], none), ([fxUnitAgent], some fxUnitAgent)]
    (fun _ _ => (by decide : (0:ℚ) ≤ 1)) (by decide) (by decide) (by decide) (by decide)
    ?_ 0 0
  intro pr hpr
  fin_cases hpr
  · exact ⟨fun a ha => by fin_cases ha; exact hone, fun b hb => Option.noConfusion hb⟩
  · refine ⟨fun a ha => by fin_cases ha; exact hone, fun b hb => ?_⟩
    injection hb with hb2
    subst hb2
    exact hone

/-! ### Engine decomposition lemmas (all definitional) -/

theorem executeIteration_fst_bestLength (n : ℕ) (d : Mat) (p : AlgorithmParams)
    (s : RandStream) (it : ℕ) (st : ACO.EngineState) :
    (ACO.executeIteration n d p s it st).1.bestLength =
      (iterBestChoice n d p s st).tourLength := rfl

theorem executeIteration_fst_bestTour (n : ℕ) (d : Mat) (p : AlgorithmParams)
    (s : RandStream) (it : ℕ) (st : ACO.EngineState) :
    (ACO.executeIteration n d p s it st).1.bestTour = (iterBestChoice n d p s st).tour := rfl

theorem executeIteration_fst_averageLength (n : ℕ) (d : Mat) (p : AlgorithmParams)
    (s : RandStream) (it : ℕ) (st : ACO.EngineState) :
    (ACO.executeIteration n d p s it st).1.averageLength =
      JsNum.jdiv
        ((iterAgents n d p s st).foldl (fun acc a => JsNum.jadd acc a.tourLength) (JsNum.fin 0))
        (JsNum.fin ((iterAgents n d p s st).length : ℚ)) := rfl

theorem executeIteration_snd_agents (n : ℕ) (d : Mat) (p : AlgorithmParams)
    (s : RandStream) (it : ℕ) (st : ACO.EngineState) :
    (ACO.executeIteration n d p s it st).2.agents = iterAgents n d p s st := rfl

theorem executeIteration_snd_bestAgent (n : ℕ) (d : Mat) (p : AlgorithmParams)
    (s : RandStream) (it : ℕ) (st : ACO.EngineState) :
    (ACO.executeIteration n d p s it st).2.bestAgent = some (iterBestChoice n d p s st) := rfl

/-! ### Claim C9 (amended): the single-agent run -/

theorem jadd_finOrInf {a b : JsNum} (ha : finOrInf a) (hb : finOrInf b) :
    finOrInf (JsNum.jadd a b) := by
  rcases a with _ | _ | _ | qa <;> rcases b with _ | _ | _ | qb <;>
    simp_all [finOrInf, JsNum.jadd]

theorem calcLoop_finOrInf {d : Mat} (hd : ∀ i j, finOrInf (d i j)) :
    ∀ (t : List ℕ) (acc : JsNum), finOrInf acc → finOrInf (Graph.calcLoop d acc t)
  | [], _, hacc => hacc
  | [_], _, hacc => hacc
  | a :: b :: rest, _, hacc =>
    calcLoop_finOrInf hd (b :: rest) _ (jadd_finOrInf hacc (hd a b))

theorem calculateDistance_finOrInf {d : Mat} (hd : ∀ i j, finOrInf (d i j))
    (t : List ℕ) : finOrInf (Graph.calculateDistance d t) := by
  unfold Graph.calculateDistance
  split
  · trivial
  · exact calcLoop_finOrInf hd t _ trivial

theorem jdiv_one {x : JsNum} (hx : finOrInf x) : JsNum.jdiv x (JsNum.fin 1) = x := by
  rcases x with _ | _ | _ | q
  · exact absurd hx not_false
  · show (if (0:ℚ) ≤ 1 then JsNum.inf else JsNum.ninf) = JsNum.inf
    rw [if_pos (by norm_num)]
  · exact absurd hx not_false
  · show (if (1:ℚ) = 0 then (if 0 < q then JsNum.inf else if q < 0 then JsNum.ninf else JsNum.nan)
        else JsNum.fin (q / 1)) = JsNum.fin q
    rw [if_neg (by norm_num : ¬(1:ℚ) = 0), div_one]

theorem jle_refl_finOrInf {x : JsNum} (hx : finOrInf x) : JsNum.jle x x = true := by
  rcases x with _ | _ | _ | q
  · exact absurd hx not_false
  · rfl
  · exact absurd hx not_false
  · simp [JsNum.jle]

theorem jle_of_not_jlt {a b : JsNum} (ha : finOrInf a) (hb : finOrInf b)
    (h : JsNum.jlt a b = false) : JsNum.jle b a = true := by
  rcases a with _ | _ | _ | qa <;> rcases b with _ | _ | _ | qb <;>
    simp_all [finOrInf, JsNum.jlt, JsNum.jle]

theorem moveAgents_length (n : ℕ) (d : Mat) (p : AlgorithmParams) (pher : Mat)
    (s : RandStream) : ∀ (l : List Agent) (k : ℕ),
    (ACO.moveAgents n d p pher s l k).1.length = l.length := by
  intro l
  induction l with
  | nil => intro k; rfl
  | cons a rest ih =>
    intro k
    unfold ACO.moveAgents
    split
    · simpa using ih _
    · simpa using ih _

theorem constructionPhase_length (n : ℕ) (d : Mat) (p : AlgorithmParams) (pher : Mat)
    (s : RandStream) (agents : List Agent) (k : ℕ) :
    (ACO.constructionPhase n d p pher s agents k).1.length = agents.length := by
  unfold ACO.constructionPhase
  exact foldl_preserves (fun ak : List Agent × ℕ => ak.1.length = agents.length) _
    (fun ak _ hak => by
      show (ACO.moveAgents n d p pher s ak.1 ak.2).1.length = agents.length
      rw [moveAgents_length]
      exact hak) _ (agents, k) rfl

theorem iterAgents_length (n : ℕ) (d : Mat) (p : AlgorithmParams) (s : RandStream)
    (st : ACO.EngineState) : (iterAgents n d p s st).length = st.agents.length := by
  unfold iterAgents
  rw [List.length_map, constructionPhase_length]

theorem iterAgents_tourLength (n : ℕ) (d : Mat) (p : AlgorithmParams) (s : RandStream)
    (st : ACO.EngineState) : ∀ a ∈ iterAgents n d p s st,
    a.tourLength = Graph.calculateDistance d a.tour := by
  intro a ha
  obtain ⟨a0, _, rfl⟩ := List.mem_map.mp ha
  rfl

theorem findBestAgent_singleton (a : Agent) : ACO.findBestAgent [a] = a := by
  unfold ACO.findBestAgent
  simp only [List.foldl, List.headI]
  split_ifs <;> rfl

theorem resetAgentsState_length (n : ℕ) (st : ACO.EngineState) :
    (ACO.resetAgentsState n st).agents.length = st.agents.length := by
  unfold ACO.resetAgentsState
  simp

theorem iterBestChoice_none (n : ℕ) (d : Mat) (p : AlgorithmParams) (s : RandStream)
    (st : ACO.EngineState) (h : st.bestAgent = none) :
    iterBestChoice n d p s st = ACO.findBestAgent (iterAgents n d p s st) := by
  unfold iterBestChoice
  rw [h]

theorem iterBestChoice_some (n : ℕ) (d : Mat) (p : AlgorithmParams) (s : RandStream)
    (st : ACO.EngineState) (b : Agent) (h : st.bestAgent = some b) :
    iterBestChoice n d p s st =
      if JsNum.jlt (ACO.findBestAgent (iterAgents n d p s st)).tourLength b.tourLength then
        ACO.findBestAgent (iterAgents n d p s st)
      else b := by
  unfold iterBestChoice
  rw [h]

/-- One iteration of a single-agent run: the population stays a singleton
`[a]`, the emitted average is exactly `a`'s closed-tour length, the chosen
incumbent has a NaN-free length not above `a`'s, and on the first iteration
(no stored incumbent) the incumbent *is* `a`. -/
theorem executeIteration_single_core (n : ℕ) (d : Mat) (p : AlgorithmParams) (s : RandStream)
    (it : ℕ) (st : ACO.EngineState) (hd : ∀ i j, finOrInf (d i j))
    (hlen : st.agents.length = 1)
    (hb : ∀ b, st.bestAgent = some b → finOrInf b.tourLength) :
    ∃ a : Agent,
      iterAgents n d p s st = [a] ∧ finOrInf a.tourLength ∧
      (ACO.executeIteration n d p s it st).1.averageLength = a.tourLength ∧
      finOrInf (iterBestChoice n d p s st).tourLength ∧
      JsNum.jle (iterBestChoice n d p s st).tourLength a.tourLength = true ∧
      (st.bestAgent = none → iterBestChoice n d p s st = a) := by
  have hlen2 : (iterAgents n d p s st).length = 1 := by rw [iterAgents_length, hlen]
  obtain ⟨a, ha⟩ := List.length_eq_one.mp hlen2
  have hfa : finOrInf a.tourLength := by
    have hmem : a ∈ iterAgents n d p s st := by rw [ha]; exact List.mem_singleton_self a
    rw [iterAgents_tourLength n d p s st a hmem]
    exact calculateDistance_finOrInf hd _
  have havg : (ACO.executeIteration n d p s it st).1.averageLength = a.tourLength := by
    rw [executeIteration_fst_averageLength, ha]
    show JsNum.jdiv (JsNum.jadd (JsNum.fin 0) a.tourLength) (JsNum.fin ((1:ℕ):ℚ)) = _
    rw [JsNum.jadd_zero_left, Nat.cast_one]
    exact jdiv_one hfa
  have hfb : ACO.findBestAgent (iterAgents n d p s st) = a := by
    rw [ha]
    exact findBestAgent_singleton a
  rcases hbest : st.bestAgent with _ | b
  · have hch := iterBestChoice_none n d p s st hbest
    rw [hfb] at hch
    refine ⟨a, ha, hfa, havg, ?_, ?_, fun _ => hch⟩
    · rw [hch]
      exact hfa
    · rw [hch]
      exact jle_refl_finOrInf hfa
  · have hfib : finOrInf b.tourLength := hb b hbest
    have hch := iterBestChoice_some n d p s st b hbest
    rw [hfb] at hch
    by_cases hlt : JsNum.jlt a.tourLength b.tourLength = true
    · refine ⟨a, ha, hfa, havg, ?_, ?_, ?_⟩
      · rw [hch, if_pos hlt]
        exact hfa
      · rw [hch, if_pos hlt]
        exact jle_refl_finOrInf hfa
      · intro hcontr
        exact Option.noConfusion hcontr
    · have hlt2 : JsNum.jlt a.tourLength b.tourLength = false :=
        eq_false_of_ne_true hlt
      refine ⟨a, ha, hfa, havg, ?_, ?_, ?_⟩
      · rw [hch, if_neg (by rw [hlt2]; exact Bool.false_ne_true)]
        exact hfib
      · rw [hch, if_neg (by rw [hlt2]; exact Bool.false_ne_true)]
        exact jle_of_not_jlt hfa hfib hlt2
      · intro hcontr
        exact Option.noConfusion hcontr

/-- Single-agent invariant through the generator loop: every emitted result
has `bestLength ≤ averageLength`, and when the loop starts with no stored
incumbent the first emitted result has `bestLength = averageLength`. -/
theorem genLoop_single (n : ℕ) (d : Mat) (p : AlgorithmParams) (s : RandStream)
    (hd : ∀ i j, finOrInf (d i j)) :
    ∀ (fuel cur noImp : ℕ) (st : ACO.EngineState),
      st.agents.length = 1 →
      (∀ b, st.bestAgent = some b → finOrInf b.tourLength) →
      (∀ r ∈ ACO.genLoop n d p s fuel cur noImp st,
        JsNum.jle r.bestLength r.averageLength = true) ∧
      (st.bestAgent = none →
        ∀ r, (ACO.genLoop n d p s fuel cur noImp st).head? = some r →
          r.bestLength = r.averageLength) := by
  intro fuel
  induction fuel with
  | zero =>
    intro cur noImp st _ _
    exact ⟨fun r hr => absurd hr (List.not_mem_nil r), fun _ r hr => by cases hr⟩
  | succ fuel ih =>
    intro cur noImp st hlen hb
    obtain ⟨a, ha, hfa, havg, hfc, hle, hnone⟩ :=
      executeIteration_single_core n d p s (cur + 1) st hd hlen hb
    by_cases hcur : cur < p.maxIterations
    · have hlenN : (ACO.resetAgentsState n
          (ACO.executeIteration n d p s (cur + 1) st).2).agents.length = 1 := by
        rw [resetAgentsState_length, executeIteration_snd_agents, ha]
        rfl
      have hbN : ∀ b', (ACO.resetAgentsState n
          (ACO.executeIteration n d p s (cur + 1) st).2).bestAgent = some b' →
          finOrInf b'.tourLength := by
        intro b' hb'
        have hsame : (ACO.resetAgentsState n
            (ACO.executeIteration n d p s (cur + 1) st).2).bestAgent =
            (ACO.executeIteration n d p s (cur + 1) st).2.bestAgent := rfl
        rw [hsame, executeIteration_snd_bestAgent] at hb'
        injection hb' with hb2
        rw [← hb2]
        exact hfc
      have hR : JsNum.jle (ACO.executeIteration n d p s (cur + 1) st).1.bestLength
          (ACO.executeIteration n d p s (cur + 1) st).1.averageLength = true := by
        rw [executeIteration_fst_bestLength, havg]
        exact hle
      unfold ACO.genLoop
      rw [if_pos hcur]
      dsimp only
      constructor
      · intro r hr
        split at hr
        all_goals split at hr
        all_goals rcases List.mem_cons.mp hr with rfl | hr2
        all_goals
          first
          | exact hR
          | exact absurd hr2 (List.not_mem_nil r)
          | exact (ih (cur + 1) _ _ hlenN hbN).1 r hr2
      · intro hnone' r hr
        have heq := hnone hnone'
        have hEq : (ACO.executeIteration n d p s (cur + 1) st).1.bestLength =
            (ACO.executeIteration n d p s (cur + 1) st).1.averageLength := by
          rw [executeIteration_fst_bestLength, havg, heq]
        split at hr
        all_goals split at hr
        all_goals rw [List.head?_cons] at hr
        all_goals injection hr with hr2
        all_goals rw [← hr2]
        all_goals exact hEq
    · unfold ACO.genLoop
      rw [if_neg hcur]
      exact ⟨fun r hr => absurd hr (List.not_mem_nil r), fun _ r hr => by cases hr⟩

/-- C9 (amended): for a single-agent run over a distance matrix free of NaN
and `-Infinity` entries, every emitted result satisfies
`bestLength ≤ averageLength` — `averageLength` is the lone agent's current
closed-tour length while `bestLength` is the best-ever length — and the first
emitted result satisfies `averageLength = bestLength`.  (The unamended claim
`averageLength == bestLength` at *every* iteration fails as soon as a later
iteration builds a worse tour than the incumbent.) -/
theorem c9_amended_single_agent (n : ℕ) (d : Mat) (p : AlgorithmParams) (s : RandStream)
    (hant : p.antCount = 1) (hd : ∀ i j, finOrInf (d i j)) :
    (∀ r ∈ ACO.run n d p s, JsNum.jle r.bestLength r.averageLength = true) ∧
    (∀ r, (ACO.run n d p s).head? = some r → r.bestLength = r.averageLength) := by
  have hlen : (ACO.initState n p).agents.length = 1 := by
    show ((List.range p.antCount).map _).length = 1
    rw [List.length_map, List.length_range, hant]
  have h := genLoop_single n d p s hd p.maxIterations 0 0 (ACO.initState n p) hlen
    (fun b hb => by cases hb)
  exact ⟨h.1, h.2 rfl⟩

/-- Witness for C9 (amended): a concrete single-agent run over the all-ones
matrix; the first emitted result has equal best and average lengths. -/
theorem c9_amended_single_agent_witness :
    JsNum.jle ((ACO.run 3 fxUnitD fxParamsC1 fxZero).headI).bestLength
        ((ACO.run 3 fxUnitD fxParamsC1 fxZero).headI).averageLength = true ∧
    ((ACO.run 3 fxUnitD fxParamsC1 fxZero).headI).bestLength =
      ((ACO.run 3 fxUnitD fxParamsC1 fxZero).headI).averageLength := by
  have h := c9_amended_single_agent 3 fxUnitD fxParamsC1 fxZero rfl (fun _ _ => trivial)
  exact ⟨h.1 _ (by decide), h.2 _ (by decide)⟩

/-! ### Claim C3 (amended): shape and validity of every emitted bestTour -/

theorem headI_mem_of_ne_nil {α : Type} [Inhabited α] : ∀ (l : List α), l ≠ [] → l.headI ∈ l
  | [], h => absurd rfl h
  | a :: l, _ => List.mem_cons_self a l

theorem headI_append {α : Type} [Inhabited α] : ∀ (l l2 : List α), l ≠ [] → (l ++ l2).headI = l.headI
  | [], _, h => absurd rfl h
  | _ :: _, _, _ => rfl

theorem closeTour_tour {a : Agent} (h : a.tour ≠ []) :
    a.closeTour.tour = a.tour ++ [a.tour.headI] := by
  unfold Agent.closeTour
  rw [if_neg h]

/-- `_moveAgents` preserves the bookkeeping invariant and advances every tour
length from `min (1 + m) n` to `min (2 + m) n` (an agent moves exactly when
its tour is still short of `n`). -/
theorem moveAgents_fresh (n : ℕ) (d : Mat) (p : AlgorithmParams) (pher : Mat)
    (s : RandStream) (m : ℕ) : ∀ (l : List Agent) (k : ℕ),
    (∀ a ∈ l, freshInv a ∧ a.tour.length = min (1 + m) n) →
    ∀ a ∈ (ACO.moveAgents n d p pher s l k).1, freshInv a ∧ a.tour.length = min (2 + m) n := by
  intro l
  induction l with
  | nil => intro k _ a ha; cases ha
  | cons a0 rest ih =>
    intro k hl b hb
    have h0 := hl a0 (List.mem_cons_self a0 rest)
    have hrest : ∀ a ∈ rest, freshInv a ∧ a.tour.length = min (1 + m) n :=
      fun a ha => hl a (List.mem_cons_of_mem a0 ha)
    unfold ACO.moveAgents at hb
    split at hb
    · rcases List.mem_cons.mp hb with rfl | hb2
      · rename_i hmoved
        have hne : a0.tour.length ≠ n := by
          rw [← h0.1.2]
          exact hmoved
        have hm := h0.2
        refine ⟨⟨by simp [Agent.moveTo], by simp [Agent.moveTo, h0.1.2]⟩, ?_⟩
        simp only [Agent.moveTo, List.length_append, List.length_cons, List.length_nil]
        omega
      · exact ih _ hrest b hb2
    · rcases List.mem_cons.mp hb with rfl | hb2
      · rename_i hstay
        have heq : b.tour.length = n := by
          rw [← h0.1.2]
          exact Decidable.not_not.mp hstay
        refine ⟨h0.1, ?_⟩
        have := h0.2
        omega
      · exact ih _ hrest b hb2

/-- The construction phase after `l.length` rounds of `_moveAgents`. -/
theorem phaseFold_fresh (n : ℕ) (d : Mat) (p : AlgorithmParams) (pher : Mat)
    (s : RandStream) : ∀ (l : List ℕ) (agents : List Agent) (k m : ℕ),
    (∀ a ∈ agents, freshInv a ∧ a.tour.length = min (1 + m) n) →
    ∀ a ∈ (l.foldl (fun ak _ => ACO.moveAgents n d p pher s ak.1 ak.2) (agents, k)).1,
      freshInv a ∧ a.tour.length = min (1 + m + l.length) n := by
  intro l
  induction l with
  | nil =>
    intro agents k m h a ha
    simpa using h a ha
  | cons x rest ih =>
    intro agents k m h a ha
    have hstep := moveAgents_fresh n d p pher s m agents k h
    have hnext : ∀ a ∈ (ACO.moveAgents n d p pher s agents k).1,
        freshInv a ∧ a.tour.length = min (1 + (m + 1)) n := by
      intro a ha2
      have := hstep a ha2
      have harith : 2 + m = 1 + (m + 1) := by omega
      rw [harith] at this
      exact this
    have := ih (ACO.moveAgents n d p pher s agents k).1
      (ACO.moveAgents n d p pher s agents k).2 (m + 1) hnext a ha
    have harith2 : 1 + (m + 1) + rest.length = 1 + m + (rest.length + 1) := by omega
    rw [harith2] at this
    simpa using this

/-- Every agent coming out of one `_executeIteration` has a well-shaped
closed tour whose recorded length is the recomputed `calculateDistance`. -/
theorem iterAgents_closedLite (n : ℕ) (d : Mat) (p : AlgorithmParams) (s : RandStream)
    (st : ACO.EngineState) (hn : 1 ≤ n)
    (hfresh : ∀ a ∈ st.agents, freshInv a ∧ a.tour.length = 1) :
    ∀ a ∈ iterAgents n d p s st, closedLite n d a := by
  intro a ha
  obtain ⟨a0, ha0, rfl⟩ := List.mem_map.mp ha
  have hbase : ∀ b ∈ st.agents, freshInv b ∧ b.tour.length = min (1 + 0) n := by
    intro b hb
    have := hfresh b hb
    have h1 : min (1 + 0) n = 1 := by omega
    rw [h1]
    exact this
  have hfin := phaseFold_fresh n d p st.pher s (List.range (n - 1)) st.agents st.rpos 0 hbase
    a0 ha0
  have hlen : a0.tour.length = n := by
    have := hfin.2
    rw [List.length_range] at this
    omega
  have hne : a0.tour ≠ [] := hfin.1.1
  have hclose := closeTour_tour hne
  refine ⟨?_, ?_, ?_⟩
  · show (closeAndMeasure d a0).tour.length = n + 1
    show a0.closeTour.tour.length = n + 1
    rw [hclose, List.length_append, hlen]
    rfl
  · show a0.closeTour.tour.getLast? = some a0.closeTour.tour.headI
    rw [hclose, List.getLast?_concat, headI_append _ _ hne]
  · rfl

theorem foldl_pick_mem (l0 : List Agent) : ∀ (l : List Agent) (b : Agent), b ∈ l0 →
    (∀ x ∈ l, x ∈ l0) →
    (l.foldl (fun bestAgent agent =>
      if agent.tourLength = JsNum.inf then bestAgent
      else if bestAgent.tourLength = JsNum.inf then agent
      else if JsNum.jlt agent.tourLength bestAgent.tourLength then agent
      else bestAgent) b) ∈ l0 := by
  intro l
  induction l with
  | nil => intro b hb _; exact hb
  | cons a rest ih =>
    intro b hb hsub
    have hstep : (if a.tourLength = JsNum.inf then b
        else if b.tourLength = JsNum.inf then a
        else if JsNum.jlt a.tourLength b.tourLength then a else b) ∈ l0 := by
      split_ifs <;> first | exact hb | exact hsub a (List.mem_cons_self a rest)
    exact ih _ hstep (fun x hx => hsub x (List.mem_cons_of_mem a hx))

theorem findBestAgent_mem (agents : List Agent) (h : agents ≠ []) :
    ACO.findBestAgent agents ∈ agents := by
  unfold ACO.findBestAgent
  exact foldl_pick_mem agents agents agents.headI (headI_mem_of_ne_nil agents h)
    (fun x hx => hx)

theorem iterBestChoice_closedLite (n : ℕ) (d : Mat) (p : AlgorithmParams) (s : RandStream)
    (st : ACO.EngineState) (hn : 1 ≤ n) (hne : iterAgents n d p s st ≠ [])
    (hfresh : ∀ a ∈ st.agents, freshInv a ∧ a.tour.length = 1)
    (hb : ∀ b, st.bestAgent = some b → closedLite n d b) :
    closedLite n d (iterBestChoice n d p s st) := by
  have hbestIter : closedLite n d (ACO.findBestAgent (iterAgents n d p s st)) :=
    iterAgents_closedLite n d p s st hn hfresh _ (findBestAgent_mem _ hne)
  rcases hbest : st.bestAgent with _ | b
  · rw [iterBestChoice_none n d p s st hbest]
    exact hbestIter
  · rw [iterBestChoice_some n d p s st b hbest]
    split
    · exact hbestIter
    · exact hb b hbest

theorem resetAgentsState_fresh (n : ℕ) (st : ACO.EngineState) :
    ∀ a ∈ (ACO.resetAgentsState n st).agents, freshInv a ∧ a.tour.length = 1 := by
  intro a ha
  obtain ⟨i, _, rfl⟩ := List.mem_map.mp ha
  exact ⟨⟨by simp [Agent.reset], rfl⟩, rfl⟩

theorem initState_fresh (n : ℕ) (p : AlgorithmParams) :
    ∀ a ∈ (ACO.initState n p).agents, freshInv a ∧ a.tour.length = 1 := by
  intro a ha
  obtain ⟨i, _, rfl⟩ := List.mem_map.mp ha
  exact ⟨⟨by simp [Agent.reset], rfl⟩, rfl⟩

theorem iterAgents_ne_nil (n : ℕ) (d : Mat) (p : AlgorithmParams) (s : RandStream)
    (st : ACO.EngineState) (hant : 1 ≤ p.antCount)
    (hlen : st.agents.length = p.antCount) : iterAgents n d p s st ≠ [] := by
  intro hnil
  have h1 : (iterAgents n d p s st).length = p.antCount := by
    rw [iterAgents_length, hlen]
  rw [hnil] at h1
  simp at h1
  omega

/-- Main loop invariant for the general tour-shape facts: every emitted
result's `bestTour` has `n + 1` entries, ends where it starts, and its
`bestLength` is the independent recomputation. -/
theorem genLoop_closedLite (n : ℕ) (d : Mat) (p : AlgorithmParams) (s : RandStream)
    (hn : 1 ≤ n) (hant : 1 ≤ p.antCount) :
    ∀ (fuel cur noImp : ℕ) (st : ACO.EngineState),
      (∀ a ∈ st.agents, freshInv a ∧ a.tour.length = 1) →
      st.agents.length = p.antCount →
      (∀ b, st.bestAgent = some b → closedLite n d b) →
      ∀ r ∈ ACO.genLoop n d p s fuel cur noImp st,
        r.bestTour.length = n + 1 ∧ r.bestTour.getLast? = some r.bestTour.headI ∧
        r.bestLength = Graph.calculateDistance d r.bestTour := by
  intro fuel
  induction fuel with
  | zero =>
    intro cur noImp st _ _ _ r hr
    exact absurd hr (List.not_mem_nil r)
  | succ fuel ih =>
    intro cur noImp st hfresh hlen hb
    by_cases hcur : cur < p.maxIterations
    · have hne2 := iterAgents_ne_nil n d p s st hant hlen
      have hchoice := iterBestChoice_closedLite n d p s st hn hne2 hfresh hb
      have hR : (ACO.executeIteration n d p s (cur + 1) st).1.bestTour.length = n + 1 ∧
          (ACO.executeIteration n d p s (cur + 1) st).1.bestTour.getLast? =
            some (ACO.executeIteration n d p s (cur + 1) st).1.bestTour.headI ∧
          (ACO.executeIteration n d p s (cur + 1) st).1.bestLength =
            Graph.calculateDistance d (ACO.executeIteration n d p s (cur + 1) st).1.bestTour := by
        rw [executeIteration_fst_bestTour, executeIteration_fst_bestLength]
        exact hchoice
      have hfreshN := resetAgentsState_fresh n (ACO.executeIteration n d p s (cur + 1) st).2
      have hlenN : (ACO.resetAgentsState n
          (ACO.executeIteration n d p s (cur + 1) st).2).agents.length = p.antCount := by
        rw [resetAgentsState_length, executeIteration_snd_agents, iterAgents_length, hlen]
      have hbN : ∀ b', (ACO.resetAgentsState n
          (ACO.executeIteration n d p s (cur + 1) st).2).bestAgent = some b' →
          closedLite n d b' := by
        intro b' hb'
        have hsame : (ACO.resetAgentsState n
            (ACO.executeIteration n d p s (cur + 1) st).2).bestAgent =
            (ACO.executeIteration n d p s (cur + 1) st).2.bestAgent := rfl
        rw [hsame, executeIteration_snd_bestAgent] at hb'
        injection hb' with hb2
        rw [← hb2]
        exact hchoice
      intro r hr
      unfold ACO.genLoop at hr
      rw [if_pos hcur] at hr
      dsimp only at hr
      split at hr
      all_goals split at hr
      all_goals rcases List.mem_cons.mp hr with rfl | hr2
      all_goals
        first
        | exact hR
        | exact absurd hr2 (List.not_mem_nil r)
        | exact ih (cur + 1) _ _ hfreshN hlenN hbN r hr2
    · intro r hr
      unfold ACO.genLoop at hr
      rw [if_neg hcur] at hr
      exact absurd hr (List.not_mem_nil r)

theorem mem_getUnvisitedNodes (a : Agent) (n x : ℕ) :
    x ∈ a.getUnvisitedNodes n ↔ x < n ∧ x ∉ a.tabu := by
  unfold Agent.getUnvisitedNodes
  simp

theorem fullInv_length_le {n : ℕ} {a : Agent} (hinv : fullInv n a) : a.tour.length ≤ n := by
  have h := (hinv.2.1.subperm
    (fun x hx => List.mem_range.mpr (hinv.2.2.1 x hx))).length_le
  rw [List.length_range] at h
  exact h

theorem getUnvisitedNodes_ne_nil {n : ℕ} {a : Agent} (hinv : fullInv n a)
    (hlt : a.tour.length < n) : a.getUnvisitedNodes n ≠ [] := by
  intro hnil
  have hsub : List.range n ⊆ a.tour := by
    intro x hx
    rw [List.mem_range] at hx
    by_contra hxt
    have hxtabu : x ∉ a.tabu := fun hc => hxt ((hinv.2.2.2.1 x).mp hc)
    have hmem : x ∈ a.getUnvisitedNodes n := (mem_getUnvisitedNodes a n x).mpr ⟨hx, hxtabu⟩
    rw [hnil] at hmem
    cases hmem
  have hle := ((List.nodup_range n).subperm hsub).length_le
  rw [List.length_range] at hle
  omega

theorem getReachableNodes_eq_unvisited {n : ℕ} {d : Mat} {a : Agent}
    (hcomp : offDiagPositive n d) (hinv : fullInv n a) :
    Graph.getReachableNodes d a.position (a.getUnvisitedNodes n) = a.getUnvisitedNodes n := by
  unfold Graph.getReachableNodes
  apply List.filter_eq_self.mpr
  intro u hu
  obtain ⟨hun, hutabu⟩ := (mem_getUnvisitedNodes a n u).mp hu
  have hposmem := hinv.2.2.2.2.2.1
  have hposn : a.position < n := hinv.2.2.1 _ hposmem
  have hne : a.position ≠ u := by
    intro hcontr
    exact hutabu ((hinv.2.2.2.1 u).mpr (hcontr ▸ hposmem))
  obtain ⟨q, hq, heq⟩ := hcomp a.position u hposn hun hne
  rw [heq]
  simp [JsNum.jlt, hq]

theorem rouletteLoop_mem (l0 : List ℕ) (r : JsNum) (last : ℕ) (hlast : last ∈ l0) :
    ∀ (att : List JsNum) (lst : List ℕ) (cum : JsNum), (∀ x ∈ lst, x ∈ l0) →
      ACO.rouletteLoop r last att lst cum ∈ l0
  | [], _, _, _ => hlast
  | _ :: _, [], _, _ => hlast
  | a :: arest, x :: xrest, cum, hsub => by
    unfold ACO.rouletteLoop
    dsimp only
    split
    · exact hsub x (List.mem_cons_self x xrest)
    · exact rouletteLoop_mem l0 r last hlast arest xrest _
        (fun y hy => hsub y (List.mem_cons_of_mem x hy))

theorem getD_mem_of_lt {l : List ℕ} {i : ℕ} (h : i < l.length) : l.getD i 0 ∈ l := by
  rw [List.getD_eq_getElem l 0 h]
  exact List.getElem_mem h

theorem uniform_index_lt {q : ℚ} (hq0 : 0 ≤ q) (hq1 : q < 1) {len : ℕ} (hlen : 0 < len) :
    (Int.floor (q * (len : ℚ))).toNat < len := by
  have hc : (0:ℚ) < (len : ℚ) := by exact_mod_cast hlen
  have h1 : q * (len : ℚ) < len := by nlinarith
  have h2 : (0:ℚ) ≤ q * len := by positivity
  have h3 : Int.floor (q * (len : ℚ)) < (len : ℤ) := by
    rw [Int.floor_lt]
    exact_mod_cast h1
  have h4 : (0:ℤ) ≤ Int.floor (q * (len:ℚ)) := Int.floor_nonneg.mpr h2
  omega

/-- Under a fully connected graph and in-range draws, node selection for an
agent that has not yet visited everything returns an unvisited node. -/
theorem selectNextNode_mem_unvisited {n : ℕ} {d : Mat} (p : AlgorithmParams) (pher : Mat)
    {a : Agent} {s : RandStream} (k : ℕ)
    (hcomp : offDiagPositive n d) (hs : streamIn01 s)
    (hinv : fullInv n a) (hlt : a.tour.length < n) :
    (ACO.selectNextNode n d p pher a s k).1 ∈ a.getUnvisitedNodes n := by
  have hne := getUnvisitedNodes_ne_nil hinv hlt
  have hreq := getReachableNodes_eq_unvisited hcomp hinv
  have hpos : 0 < (a.getUnvisitedNodes n).length := List.length_pos.mpr hne
  simp only [ACO.selectNextNode]
  rw [hreq, if_neg hne, if_neg hne]
  split
  · exact headI_mem_of_ne_nil _ hne
  · split
    · exact getD_mem_of_lt (uniform_index_lt (hs k).1 (hs k).2 hpos)
    · exact rouletteLoop_mem _ _ _
        (getD_mem_of_lt (by omega)) _ _ _ (fun y hy => hy)

theorem mem_tabuAdd (l : List ℕ) (c x : ℕ) : x ∈ Agent.tabuAdd l c ↔ x ∈ l ∨ x = c := by
  unfold Agent.tabuAdd
  split
  · rename_i hc
    constructor
    · exact Or.inl
    · rintro (h | rfl)
      · exact h
      · exact hc
  · simp

theorem moveTo_fullInv {n : ℕ} {a : Agent} {x : ℕ} (hinv : fullInv n a)
    (hx : x ∉ a.tabu) (hxn : x < n) : fullInv n (a.moveTo x) := by
  obtain ⟨hne, hnodup, hbound, htabu, hcount, hposmem, hlast⟩ := hinv
  have hxt : x ∉ a.tour := fun hc => hx ((htabu x).mpr hc)
  refine ⟨by simp [Agent.moveTo], ?_, ?_, ?_, ?_, ?_, ?_⟩
  · show (a.tour ++ [x]).Nodup
    rw [List.nodup_append]
    refine ⟨hnodup, List.nodup_singleton x, ?_⟩
    intro y hy hy2
    rw [List.mem_singleton] at hy2
    exact hxt (hy2 ▸ hy)
  · intro y hy
    rcases List.mem_append.mp hy with h | h
    · exact hbound y h
    · rw [List.mem_singleton] at h
      exact h ▸ hxn
  · intro y
    show y ∈ Agent.tabuAdd a.tabu x ↔ y ∈ a.tour ++ [x]
    rw [mem_tabuAdd, List.mem_append, List.mem_singleton, htabu y]
  · show a.visitedCount + 1 = (a.tour ++ [x]).length
    rw [List.length_append, hcount]
    rfl
  · show x ∈ a.tour ++ [x]
    simp
  · exact List.getLast?_concat a.tour

theorem moveAgents_full (n : ℕ) (d : Mat) (p : AlgorithmParams) (pher : Mat)
    (s : RandStream) (hcomp : offDiagPositive n d) (hs : streamIn01 s) :
    ∀ (l : List Agent) (k : ℕ), (∀ a ∈ l, fullInv n a) →
      ∀ a ∈ (ACO.moveAgents n d p pher s l k).1, fullInv n a := by
  intro l
  induction l with
  | nil => intro k _ a ha; cases ha
  | cons a0 rest ih =>
    intro k hl b hb
    have h0 := hl a0 (List.mem_cons_self a0 rest)
    have hrest : ∀ a ∈ rest, fullInv n a := fun a ha => hl a (List.mem_cons_of_mem a0 ha)
    unfold ACO.moveAgents at hb
    split at hb
    · rcases List.mem_cons.mp hb with rfl | hb2
      · rename_i hmoved
        have hlt : a0.tour.length < n := by
          have hle := fullInv_length_le h0
          have hne : a0.tour.length ≠ n := by
            rw [← h0.2.2.2.2.1]
            exact hmoved
          omega
        have hsel := selectNextNode_mem_unvisited p pher k hcomp hs h0 hlt
        obtain ⟨hxn, hxtabu⟩ := (mem_getUnvisitedNodes a0 n _).mp hsel
        exact moveTo_fullInv h0 hxtabu hxn
      · exact ih _ hrest b hb2
    · rcases List.mem_cons.mp hb with rfl | hb2
      · exact h0
      · exact ih _ hrest b hb2

theorem phaseFold_full (n : ℕ) (d : Mat) (p : AlgorithmParams) (pher : Mat)
    (s : RandStream) (hcomp : offDiagPositive n d) (hs : streamIn01 s) :
    ∀ (l : List ℕ) (agents : List Agent) (k : ℕ),
    (∀ a ∈ agents, fullInv n a) →
    ∀ a ∈ (l.foldl (fun ak _ => ACO.moveAgents n d p pher s ak.1 ak.2) (agents, k)).1,
      fullInv n a := by
  intro l
  induction l with
  | nil => intro agents k h a ha; exact h a ha
  | cons x rest ih =>
    intro agents k h a ha
    exact ih (ACO.moveAgents n d p pher s agents k).1
      (ACO.moveAgents n d p pher s agents k).2
      (moveAgents_full n d p pher s hcomp hs agents k h) a ha

/-- Every agent coming out of one `_executeIteration` over a fully connected
graph has a closed tour whose first `n` entries are a permutation of the `n`
nodes. -/
theorem iterAgents_closedPerm (n : ℕ) (d : Mat) (p : AlgorithmParams) (s : RandStream)
    (st : ACO.EngineState) (hn : 1 ≤ n) (hcomp : offDiagPositive n d) (hs : streamIn01 s)
    (hfull : ∀ a ∈ st.agents, fullInv n a)
    (hfresh : ∀ a ∈ st.agents, freshInv a ∧ a.tour.length = 1) :
    ∀ a ∈ iterAgents n d p s st, closedPerm n a := by
  intro a ha
  obtain ⟨a0, ha0, rfl⟩ := List.mem_map.mp ha
  have hbase : ∀ b ∈ st.agents, freshInv b ∧ b.tour.length = min (1 + 0) n := by
    intro b hb
    have hbb := hfresh b hb
    have h1 : min (1 + 0) n = 1 := by omega
    rw [h1]
    exact hbb
  have hfin := phaseFold_fresh n d p st.pher s (List.range (n - 1)) st.agents st.rpos 0 hbase
    a0 ha0
  have hlen : a0.tour.length = n := by
    have := hfin.2
    rw [List.length_range] at this
    omega
  have hfull0 := phaseFold_full n d p st.pher s hcomp hs (List.range (n - 1)) st.agents
    st.rpos hfull a0 ha0
  have hperm : a0.tour.Perm (List.range n) := by
    have hsp := hfull0.2.1.subperm
      (fun x hx => List.mem_range.mpr (hfull0.2.2.1 x hx))
    refine hsp.perm_of_length_le ?_
    rw [List.length_range, hlen]
  show ((closeAndMeasure d a0).tour.take n).Perm (List.range n)
  have htour : (closeAndMeasure d a0).tour = a0.tour ++ [a0.tour.headI] :=
    closeTour_tour hfull0.1
  rw [htour, ← hlen, List.take_left]
  rw [hlen]
  exact hperm

theorem reset_fullInv {n x : ℕ} (hx : x < n) : fullInv n (Agent.reset x) := by
  refine ⟨by simp [Agent.reset], ?_, ?_, ?_, rfl, ?_, rfl⟩
  · exact List.nodup_singleton x
  · intro y hy
    rw [show (Agent.reset x).tour = [x] from rfl, List.mem_singleton] at hy
    exact hy ▸ hx
  · intro y
    exact Iff.rfl
  · exact List.mem_singleton_self x

theorem resetAgentsState_full (n : ℕ) (st : ACO.EngineState) (hn : 1 ≤ n) :
    ∀ a ∈ (ACO.resetAgentsState n st).agents, fullInv n a := by
  intro a ha
  obtain ⟨i, _, rfl⟩ := List.mem_map.mp ha
  exact reset_fullInv (Nat.mod_lt i (by omega))

theorem initState_full (n : ℕ) (p : AlgorithmParams) (hn : 1 ≤ n) :
    ∀ a ∈ (ACO.initState n p).agents, fullInv n a := by
  intro a ha
  obtain ⟨i, _, rfl⟩ := List.mem_map.mp ha
  exact reset_fullInv (Nat.mod_lt i (by omega))

theorem iterBestChoice_closedPerm (n : ℕ) (d : Mat) (p : AlgorithmParams) (s : RandStream)
    (st : ACO.EngineState) (hn : 1 ≤ n) (hcomp : offDiagPositive n d) (hs : streamIn01 s)
    (hne : iterAgents n d p s st ≠ [])
    (hfull : ∀ a ∈ st.agents, fullInv n a)
    (hfresh : ∀ a ∈ st.agents, freshInv a ∧ a.tour.length = 1)
    (hb : ∀ b, st.bestAgent = some b → closedPerm n b) :
    closedPerm n (iterBestChoice n d p s st) := by
  have hbestIter : closedPerm n (ACO.findBestAgent (iterAgents n d p s st)) :=
    iterAgents_closedPerm n d p s st hn hcomp hs hfull hfresh _ (findBestAgent_mem _ hne)
  rcases hbest : st.bestAgent with _ | b
  · rw [iterBestChoice_none n d p s st hbest]
    exact hbestIter
  · rw [iterBestChoice_some n d p s st b hbest]
    split
    · exact hbestIter
    · exact hb b hbest

/-- Main loop invariant for the exactly-once property on fully connected
graphs: every emitted `bestTour`'s first `n` entries are a permutation of the
`n` nodes. -/
theorem genLoop_closedPerm (n : ℕ) (d : Mat) (p : AlgorithmParams) (s : RandStream)
    (hn : 1 ≤ n) (hant : 1 ≤ p.antCount) (hcomp : offDiagPositive n d) (hs : streamIn01 s) :
    ∀ (fuel cur noImp : ℕ) (st : ACO.EngineState),
      (∀ a ∈ st.agents, fullInv n a) →
      (∀ a ∈ st.agents, freshInv a ∧ a.tour.length = 1) →
      st.agents.length = p.antCount →
      (∀ b, st.bestAgent = some b → closedPerm n b) →
      ∀ r ∈ ACO.genLoop n d p s fuel cur noImp st,
        (r.bestTour.take n).Perm (List.range n) := by
  intro fuel
  induction fuel with
  | zero =>
    intro cur noImp st _ _ _ _ r hr
    exact absurd hr (List.not_mem_nil r)
  | succ fuel ih =>
    intro cur noImp st hfull hfresh hlen hb
    by_cases hcur : cur < p.maxIterations
    · have hne2 := iterAgents_ne_nil n d p s st hant hlen
      have hchoice := iterBestChoice_closedPerm n d p s st hn hcomp hs hne2 hfull hfresh hb
      have hR : ((ACO.executeIteration n d p s (cur + 1) st).1.bestTour.take n).Perm
          (List.range n) := by
        rw [executeIteration_fst_bestTour]
        exact hchoice
      have hfullN := resetAgentsState_full n (ACO.executeIteration n d p s (cur + 1) st).2 hn
      have hfreshN := resetAgentsState_fresh n (ACO.executeIteration n d p s (cur + 1) st).2
      have hlenN : (ACO.resetAgentsState n
          (ACO.executeIteration n d p s (cur + 1) st).2).agents.length = p.antCount := by
        rw [resetAgentsState_length, executeIteration_snd_agents, iterAgents_length, hlen]
      have hbN : ∀ b', (ACO.resetAgentsState n
          (ACO.executeIteration n d p s (cur + 1) st).2).bestAgent = some b' →
          closedPerm n b' := by
        intro b' hb'
        have hsame : (ACO.resetAgentsState n
            (ACO.executeIteration n d p s (cur + 1) st).2).bestAgent =
            (ACO.executeIteration n d p s (cur + 1) st).2.bestAgent := rfl
        rw [hsame, executeIteration_snd_bestAgent] at hb'
        injection hb' with hb2
        rw [← hb2]
        exact hchoice
      intro r hr
      unfold ACO.genLoop at hr
      rw [if_pos hcur] at hr
      dsimp only at hr
      split at hr
      all_goals split at hr
      all_goals rcases List.mem_cons.mp hr with rfl | hr2
      all_goals
        first
        | exact hR
        | exact absurd hr2 (List.not_mem_nil r)
        | exact ih (cur + 1) _ _ hfullN hfreshN hlenN hbN r hr2
    · intro r hr
      unfold ACO.genLoop at hr
      rw [if_neg hcur] at hr
      exact absurd hr (List.not_mem_nil r)

/-- C3 (amended): every emitted `bestTour` of a run (at least one node, at
least one ant) has `count + 1` entries, ends at the node it starts from, and
its `bestLength` equals the sum of consecutive edge distances along it,
recomputed independently by `calculateDistance`; moreover, when every pair of
distinct nodes is at a finite positive distance (a fully connected graph, so
no agent can get stuck) and all `Math.random()` draws lie in `[0, 1)`, the
first `count` entries visit each of the `count` nodes exactly once.  (On
graphs with unreachable pairs the exactly-once part fails: a stuck agent
falls back to its start node mid-construction — see the counterexample.) -/
theorem c3_amended_tour_validity (n : ℕ) (d : Mat) (p : AlgorithmParams) (s : RandStream)
    (hn : 1 ≤ n) (hant : 1 ≤ p.antCount) :
    ∀ r ∈ ACO.run n d p s,
      r.bestTour.length = n + 1 ∧
      r.bestTour.getLast? = some r.bestTour.headI ∧
      r.bestLength = Graph.calculateDistance d r.bestTour ∧
      (offDiagPositive n d → streamIn01 s → (r.bestTour.take n).Perm (List.range n)) := by
  intro r hr
  have hlenInit : (ACO.initState n p).agents.length = p.antCount := by
    show ((List.range p.antCount).map _).length = p.antCount
    rw [List.length_map, List.length_range]
  have hlite := genLoop_closedLite n d p s hn hant p.maxIterations 0 0 (ACO.initState n p)
    (initState_fresh n p) hlenInit (fun b hb => by cases hb) r hr
  refine ⟨hlite.1, hlite.2.1, hlite.2.2, ?_⟩
  intro hcomp hs
  exact genLoop_closedPerm n d p s hn hant hcomp hs p.maxIterations 0 0 (ACO.initState n p)
    (initState_full n p hn) (initState_fresh n p) hlenInit (fun b hb => by cases hb) r hr

/-- Witness for C3 (amended): on the all-ones 3-node matrix the first emitted
`bestTour` has 4 entries and its first 3 entries are a permutation of the
3 nodes. -/
theorem c3_amended_tour_validity_witness :
    ((ACO.run 3 fxUnitD fxParamsC1 fxZero).headI.bestTour.take 3).Perm (List.range 3) ∧
    (ACO.run 3 fxUnitD fxParamsC1 fxZero).headI.bestTour.length = 4 := by
  have h := c3_amended_tour_validity 3 fxUnitD fxParamsC1 fxZero (by omega) (by decide)
    ((ACO.run 3 fxUnitD fxParamsC1 fxZero).headI) (by decide)
  exact ⟨h.2.2.2 (fun i j _ _ _ => ⟨1, by norm_num, rfl⟩)
    (fun k => ⟨le_refl 0, by show (0:ℚ) < 1; norm_num⟩), h.1⟩

end AcoSim
